import Mathlib

/-!
Verification of the Telegram-to-MAX relay bot against its specification.

The definitions below are shallow embeddings of the JavaScript sources
(`src/index.js` and the bridge-init route generator).  JavaScript numbers are
modelled as `Int` (identifiers, text offsets) or `Nat` (timestamps,
durations); fallible operations are modelled with `Except`; the network
clients (Telegram `getFile`, MAX uploads and sends) are modelled as injected
oracles, exactly at the boundary at which `index.js` calls them.
-/

/- ===================== Delay queue and worker loop =====================
   Embeds `queue`, `enqueueMessage` and `processQueue` from src/index.js
   (lines 639-678).  A queue item carries its `runAt` timestamp; the worker
   repeatedly takes the HEAD of the array (`queue[0]`), sleeps until its
   `runAt` (`Math.max(0, next.runAt - Date.now())`), removes it
   (`queue.shift()`) and attempts delivery inside a per-item try/catch.
   Delivery is the injected `deliver` oracle; a thrown error is its
   `Except.error` outcome, which the loop records and moves past. -/

/-- A queued work item of `queue` in src/index.js: `runAt` is the scheduled
release instant, `tag` stands for the message payload. -/
structure QueueItem where
  runAt : Nat
  tag : String
deriving DecidableEq, Repr

/-- The worker loop `processQueue` (src/index.js lines 639-669): processes the
queue strictly front to back; for each item it wakes at
`max clock runAt` (the `sleep(waitMs)` with `waitMs = max 0 (runAt - now)`),
then attempts delivery; the per-item `try/catch` means a failed delivery is
recorded and the loop continues with the rest of the queue.  Returns the
sequence of (item, wake time, delivery outcome) in processing order. -/
def processQueue (deliver : QueueItem → Except String Unit) :
    Nat → List QueueItem → List (QueueItem × Nat × Except String Unit)
  | _, [] => []
  | clock, next :: rest =>
      let t := max clock next.runAt
      (next, t, deliver next) :: processQueue deliver t rest

/-- `enqueueMessage` (src/index.js lines 671-678): pushes to the back of the
queue with `runAt = now + config.repostDelayMs`. -/
def enqueueMessage (delay now : Nat) (tag : String) (q : List QueueItem) :
    List QueueItem :=
  q ++ [{ runAt := now + delay, tag := tag }]

/-- The queue produced by a sequence of `enqueueMessage` calls, each tagged
with the wall-clock instant at which it happened.  All calls share the single
configured `repostDelayMs`, as in src/index.js. -/
def enqueueAll (delay : Nat) (evs : List (Nat × String)) : List QueueItem :=
  evs.foldl (fun q e => enqueueMessage delay e.1 e.2 q) []

/-- Work items standing for the spec scenario of claim C1: item A enqueued at
time 0 with a 5000 ms delay, item B enqueued at time 1 with a 100 ms delay, so
A's scheduled instant is 5000 and B's is 101. -/
def itemA : QueueItem := { runAt := 5000, tag := "A" }

/-- Companion to `itemA`: the later-enqueued, earlier-scheduled item B. -/
def itemB : QueueItem := { runAt := 101, tag := "B" }

/- ===================== Inbound messages, media-group buffer =============
   Embeds `isAllowedSource`, `collectMediaGroup` and `onTelegramMessage`
   from src/index.js (lines 98-101, 545-569, 680-687).  The `setTimeout`
   window timer is modelled by storing each buffer entry's expiry instant
   (`arrival time + mediaGroupCollectMs`); re-arming the timer on a new
   arrival is overwriting that instant.  A timer whose expiry precedes the
   next inbound event fires first, as in the single-threaded JS event loop. -/

/-- The fields of a Telegram message that the source-filtering and album
logic of src/index.js reads. -/
structure TgMessage where
  chatId : Int
  message_id : Int
  media_group_id : Option String
deriving DecidableEq, Repr

/-- `isAllowedSource` (src/index.js lines 98-101): with no configured source
chat ids every chat is allowed, otherwise membership decides. -/
def isAllowedSource (sourceChatIds : List Int) (chatId : Int) : Bool :=
  if sourceChatIds.isEmpty then true else sourceChatIds.contains chatId

/-- The JS truthiness test `if (message.media_group_id)`: true for a present,
non-empty string. -/
def mgTruthy (m : TgMessage) : Bool :=
  match m.media_group_id with
  | some s => !(s == "")
  | none => false

/-- The album key built in `collectMediaGroup`:
the template literal `chat.id + ":" + media_group_id` (an absent
`media_group_id` prints as "undefined" in JS). -/
def mkKey (m : TgMessage) : String :=
  toString m.chatId ++ ":" ++
    (match m.media_group_id with
     | some s => s
     | none => "undefined")

/-- One entry of `mediaGroupBuffer`: collected messages plus the instant at
which its (re-armed) window timer fires. -/
structure BufEntry where
  messages : List TgMessage
  expiry : Nat
deriving DecidableEq, Repr

/-- The process-wide `mediaGroupBuffer` `Map`, as an insertion-ordered
association list. -/
abbrev MgBuffer := List (String × BufEntry)

/-- `Map.get` on the buffer. -/
def bufGet (buf : MgBuffer) (k : String) : Option BufEntry :=
  match List.find? (fun kv => kv.1 == k) buf with
  | some kv => some kv.2
  | none => none

/-- `Map.set` on the buffer: replaces in place if the key exists, appends
otherwise (JS `Map` keeps insertion order). -/
def bufSet (buf : MgBuffer) (k : String) (v : BufEntry) : MgBuffer :=
  if List.any buf (fun kv => kv.1 == k) then
    List.map (fun kv => if kv.1 == k then (k, v) else kv) buf
  else buf ++ [(k, v)]

/-- `collectMediaGroup` (src/index.js lines 545-569) without the timer
callback: looks the key up (`|| { messages: [], timer: null }`), appends the
message unless one with the same `message_id` is already collected, and
re-arms the window timer to `now + mediaGroupCollectMs`. -/
def collectStep (collectMs now : Nat) (buf : MgBuffer) (m : TgMessage) :
    MgBuffer :=
  let key := mkKey m
  let existing := (bufGet buf key).getD { messages := [], expiry := 0 }
  let msgs :=
    if List.any existing.messages (fun it => it.message_id == m.message_id) then
      existing.messages
    else existing.messages ++ [m]
  bufSet buf key { messages := msgs, expiry := now + collectMs }

/-- Ordering used by the timer callback's
`[...existing.messages].sort((a, b) => a.message_id - b.message_id)`. -/
def msgLE (a b : TgMessage) : Prop := a.message_id ≤ b.message_id

instance : DecidableRel msgLE := fun a b =>
  inferInstanceAs (Decidable (a.message_id ≤ b.message_id))

instance : IsTotal TgMessage msgLE := ⟨fun a b => Int.le_total a.message_id b.message_id⟩

instance : IsTrans TgMessage msgLE := ⟨fun _ _ _ h1 h2 => le_trans h1 h2⟩

/-- The work item pushed by the timer callback of `collectMediaGroup`:
`kind: 'media_group'`, `runAt = Date.now() + repostDelayMs` at firing time,
and the collected messages sorted by `message_id`. -/
structure MgWorkItem where
  runAt : Nat
  messages : List TgMessage
deriving DecidableEq, Repr

/-- The timer callback body for one buffer entry, firing at `expiry`. -/
def fireEntry (repostDelay : Nat) (e : BufEntry) : MgWorkItem :=
  { runAt := e.expiry + repostDelay
    messages := List.insertionSort msgLE e.messages }

/-- Runs every timer due at or before instant `t`: each such entry is deleted
from the buffer and its sorted batch work item is emitted. -/
def fireDue (repostDelay t : Nat) (buf : MgBuffer) :
    MgBuffer × List MgWorkItem :=
  (List.filter (fun kv => decide (t < kv.2.expiry)) buf,
   List.map (fun kv => fireEntry repostDelay kv.2)
     (List.filter (fun kv => decide (kv.2.expiry ≤ t)) buf))

/-- Event-loop simulation of the album collector: consumes timed inbound
album messages in order, running due timers before each arrival; after the
last arrival the remaining timers fire (the claim's "silence longer than the
window").  Returns the emitted batch work items and the final buffer. -/
def simulateCollect (collectMs repostDelay : Nat) (buf : MgBuffer) :
    List (Nat × TgMessage) → List MgWorkItem × MgBuffer
  | [] => (List.map (fun kv => fireEntry repostDelay kv.2) buf, [])
  | (t, m) :: rest =>
      let fired := fireDue repostDelay t buf
      let buf2 := collectStep collectMs t fired.1 m
      let next := simulateCollect collectMs repostDelay buf2 rest
      (fired.2 ++ next.1, next.2)

/-- Shared state touched by `onTelegramMessage`: the delivery queue (here,
scheduled instant and message) and the album buffer. -/
structure BridgeState where
  queue : List (Nat × TgMessage)
  buffer : MgBuffer
deriving DecidableEq

/-- `onTelegramMessage` (src/index.js lines 680-687): disallowed sources are
dropped before any queueing or buffering; album messages go to
`collectMediaGroup`; the rest are enqueued with the configured delay. -/
def onTelegramMessage (sourceChatIds : List Int) (repostDelay collectMs now : Nat)
    (st : BridgeState) (m : TgMessage) : BridgeState :=
  if isAllowedSource sourceChatIds m.chatId then
    if mgTruthy m then
      { st with buffer := collectStep collectMs now st.buffer m }
    else
      { st with queue := st.queue ++ [(now + repostDelay, m)] }
  else st

/- ===================== Outbound send ====================================
   Embeds the payload construction of `sendToMax` (src/index.js lines
   587-596); the target-resolution prelude (lines 572-585) touches only which
   MAX API endpoint is called, not the text or payload. -/

/-- An uploaded MAX attachment handle (the `toJson()` of an upload result),
opaque to the relay logic. -/
structure MaxAttachment where
  payload : String
deriving DecidableEq, Repr

/-- The options object passed to `sendMessageToChat`/`sendMessageToUser`:
`format: 'markdown'` always; the `attachments` field is added only when the
list is non-empty. -/
structure MaxPayload where
  format : String
  attachments : Option (List MaxAttachment)
deriving DecidableEq, Repr

/-- The text/payload part of `sendToMax` (src/index.js lines 587-596):
`safeText = text || ' '` and conditional `payload.attachments`.  Returns the
(text, options) pair handed to the MAX send call. -/
def sendToMax (text : String) (attachments : List MaxAttachment) :
    String × MaxPayload :=
  (if text == "" then " " else text,
   { format := "markdown"
     attachments := if attachments.length != 0 then some attachments else none })

/- ===================== Attachment resolution cascade ====================
   Embeds `hasValidFileId`, `resolveDocumentKind`, `buildMediaCandidates`,
   `getMessageCandidates`, `isTooBigTelegramError` and `buildAttachments`
   from src/index.js (lines 130-151, 153-218, 442-445, 465-543).  The
   Telegram `getFile` + MAX upload pipeline of `uploadMediaCandidate`
   (lines 447-463) is the injected `upload` oracle; a thrown error is its
   `Except.error` carrying the error message string. -/

/-- A media reference (`video`, `animation`, `audio`, `voice`, `video_note`)
as read by src/index.js: just its `file_id`, which may be absent or not a
string (`none`). -/
structure MediaRef where
  file_id : Option String
deriving DecidableEq, Repr

/-- One entry of a message's `photo` size array.  `file_size` is carried for
stating size ordering only; src/index.js never reads it and relies on the
array being size-ascending. -/
structure PhotoSize where
  file_id : Option String
  file_size : Nat
deriving DecidableEq, Repr

/-- A `document` attachment with the fields `resolveDocumentKind` reads. -/
structure TgDocument where
  file_id : Option String
  mime_type : Option String
  file_name : Option String
deriving DecidableEq, Repr

/-- The media fields of one message-like object (a message, its
`reply_to_message`, or its `external_reply`). -/
structure MessageLike where
  photo : List PhotoSize
  video : Option MediaRef
  animation : Option MediaRef
  audio : Option MediaRef
  voice : Option MediaRef
  video_note : Option MediaRef
  document : Option TgDocument
deriving DecidableEq, Repr

/-- A full inbound message: its own media fields plus the optional reply and
quoted/external-reply message-like objects. -/
structure TgFullMessage where
  base : MessageLike
  reply_to_message : Option MessageLike
  external_reply : Option MessageLike
deriving DecidableEq, Repr

/-- The four upload sinks of `uploadMediaCandidate`. -/
inductive MediaKind where
  | image
  | video
  | audio
  | file
deriving DecidableEq, Repr

/-- A media candidate as built by `buildMediaCandidates`. -/
structure Candidate where
  label : String
  kind : MediaKind
  fileId : String
deriving DecidableEq, Repr

/-- `hasValidFileId` (src/index.js line 134): a non-empty string. -/
def hasValidFileId : Option String → Bool
  | some s => decide (0 < s.length)
  | none => false

/-- ASCII `toLowerCase`, acting on the character list of a string (the case
folding the JS code relies on: every pattern it compares against is ASCII). -/
def lowerStr (s : String) : String :=
  String.mk (s.data.map Char.toLower)

/-- JS `String.prototype.startsWith`, on character lists. -/
def strStartsWith (s p : String) : Bool :=
  List.isPrefixOf p.data s.data

/-- JS `String.prototype.endsWith`, on character lists. -/
def strEndsWith (s p : String) : Bool :=
  List.isSuffixOf p.data s.data

/-- Does `needle` occur at the head of the character list? -/
def matchesAt : List Char → List Char → Bool
  | [], _ => true
  | _ :: _, [] => false
  | n :: ns, h :: hs => (n == h) && matchesAt ns hs

/-- Does `needle` occur anywhere in the character list? -/
def hasSub (needle : List Char) : List Char → Bool
  | [] => matchesAt needle []
  | h :: t => matchesAt needle (h :: t) || hasSub needle t

/-- `resolveDocumentKind` (src/index.js lines 136-151): classify a document
by mime type, then by file extension, else generic file. -/
def resolveDocumentKind (document : TgDocument) : MediaKind :=
  let mime := lowerStr (document.mime_type.getD "")
  let fileName := lowerStr (document.file_name.getD "")
  if strStartsWith mime "video/" then MediaKind.video
  else if strStartsWith mime "audio/" then MediaKind.audio
  else if strEndsWith fileName ".mp4" || strEndsWith fileName ".mov"
      || strEndsWith fileName ".mkv" || strEndsWith fileName ".webm" then
    MediaKind.video
  else if strEndsWith fileName ".mp3" || strEndsWith fileName ".m4a"
      || strEndsWith fileName ".wav" || strEndsWith fileName ".ogg" then
    MediaKind.audio
  else MediaKind.file

/-- The photo part of `buildMediaCandidates`: the size array walked from the
last element down to the first, skipping entries without a valid file id. -/
def photoCands (ml : MessageLike) (label : String) : List Candidate :=
  ml.photo.reverse.filterMap (fun p =>
    match p.file_id with
    | some s =>
        if 0 < s.length then
          some { label := label, kind := MediaKind.image, fileId := s }
        else none
    | none => none)

/-- One optional-media-field step of `buildMediaCandidates`: a single
candidate of the given kind when the reference has a valid file id. -/
def optCand (label : String) (kind : MediaKind) (r : Option MediaRef) :
    List Candidate :=
  match r with
  | some ref =>
      match ref.file_id with
      | some s => if 0 < s.length then [{ label := label, kind := kind, fileId := s }] else []
      | none => []
  | none => []

/-- The document step of `buildMediaCandidates`, classified by
`resolveDocumentKind`. -/
def docCand (label : String) (d : Option TgDocument) : List Candidate :=
  match d with
  | some doc =>
      match doc.file_id with
      | some s =>
          if 0 < s.length then
            [{ label := label, kind := resolveDocumentKind doc, fileId := s }]
          else []
      | none => []
  | none => []

/-- `buildMediaCandidates` (src/index.js lines 153-218): pushes, in source
order, photo sizes (largest index first), `video`, `animation` (as video),
`audio`, `voice` (as audio), `video_note` (as video) and `document`
(classified).  An absent message-like object yields no candidates. -/
def buildMediaCandidates : Option MessageLike → String → List Candidate
  | none, _ => []
  | some ml, label =>
      photoCands ml label
        ++ optCand label MediaKind.video ml.video
        ++ optCand label MediaKind.video ml.animation
        ++ optCand label MediaKind.audio ml.audio
        ++ optCand label MediaKind.audio ml.voice
        ++ optCand label MediaKind.video ml.video_note
        ++ docCand label ml.document

/-- `getMessageCandidates` (src/index.js lines 130-132):
`[message, reply_to_message, external_reply].filter(Boolean)`. -/
def getMessageCandidates (m : TgFullMessage) : List MessageLike :=
  List.filterMap id [some m.base, m.reply_to_message, m.external_reply]

/-- The candidate list assembled at the top of `buildAttachments`
(src/index.js lines 466-471): positions 0, 1, 2 of the Boolean-filtered
message-like list, labelled positionally. -/
def mediaCandidates (m : TgFullMessage) : List Candidate :=
  let candidates := getMessageCandidates m
  buildMediaCandidates (candidates.get? 0) "message"
    ++ buildMediaCandidates (candidates.get? 1) "reply_to_message"
    ++ buildMediaCandidates (candidates.get? 2) "external_reply"

/-- `isTooBigTelegramError` (src/index.js lines 442-445): the
case-insensitive regex test `/file is too big/i` on the error message. -/
def isTooBigTelegramError (msg : String) : Bool :=
  hasSub ("file is too big".data) ((lowerStr msg).data)

/-- The too-large warning string of `buildAttachments` (src/index.js
line 518). -/
def tooBigWarning : String :=
  "Вложение из Telegram не скопировано: файл слишком большой для Bot API."

/-- The generic unavailable warning string of `buildAttachments`
(src/index.js line 519). -/
def unavailableWarning : String :=
  "Вложение из Telegram не скопировано: файл недоступен через Bot API."

/-- The internal-error warning string of the outer catch of
`buildAttachments` (src/index.js line 540). -/
def internalWarning : String :=
  "Вложение из Telegram не скопировано: внутренняя ошибка."

/-- The result shape of `buildAttachments`. -/
structure BuildResult where
  attachments : List MaxAttachment
  warningText : String
deriving DecidableEq, Repr

/-- Classifies an upload outcome as a seen "file is too big" failure. -/
def errTooBig (r : Except String MaxAttachment) : Bool :=
  match r with
  | Except.error e => isTooBigTelegramError e
  | Except.ok _ => false

/-- The candidate loop of `buildAttachments` (src/index.js lines 494-531):
tries candidates in order; the first successful upload returns immediately
with that single attachment and no warning; a failure records whether it was
a too-big error and continues; when all fail the warning is chosen by whether
a too-big error was seen.  Also returns the list of candidates that were
actually attempted, in order. -/
def runCascade (upload : Candidate → Except String MaxAttachment) :
    List Candidate → Bool → List Candidate × BuildResult
  | [], tooBigSeen =>
      ([], { attachments := []
             warningText := if tooBigSeen then tooBigWarning else unavailableWarning })
  | c :: rest, tooBigSeen =>
      match upload c with
      | Except.ok att => ([c], { attachments := [att], warningText := "" })
      | Except.error e =>
          let next := runCascade upload rest (tooBigSeen || isTooBigTelegramError e)
          (c :: next.1, next.2)

/-- `buildAttachments` (src/index.js lines 465-531): no candidates yields no
attachments and no warning; otherwise the cascade runs with the too-big flag
initially unset. -/
def buildAttachments (upload : Candidate → Except String MaxAttachment)
    (m : TgFullMessage) : BuildResult :=
  let cands := mediaCandidates m
  if cands.isEmpty then { attachments := [], warningText := "" }
  else (runCascade upload cands false).2

/-- The candidates `buildAttachments` actually attempts, in order. -/
def buildAttachmentsTried (upload : Candidate → Except String MaxAttachment)
    (m : TgFullMessage) : List Candidate :=
  let cands := mediaCandidates m
  if cands.isEmpty then [] else (runCascade upload cands false).1

/-- The outer try/catch of `buildAttachments` (src/index.js lines 532-542):
an unexpected error anywhere in the component body is converted to an empty
result with the generic internal warning. -/
def buildAttachmentsCaught (outcome : Except String BuildResult) : BuildResult :=
  match outcome with
  | Except.ok r => r
  | Except.error _ => { attachments := [], warningText := internalWarning }

/-- Priority rank of a candidate kind as claimed by the spec: image before
video before audio before generic file. -/
def kindRank : MediaKind → Nat
  | MediaKind.image => 0
  | MediaKind.video => 1
  | MediaKind.audio => 2
  | MediaKind.file => 3

/-- A candidate without its source label. -/
def dropLabel (c : Candidate) : MediaKind × String := (c.kind, c.fileId)

/-- The number of non-photo candidates a message-like object contributes. -/
def nonPhotoCands (ml : MessageLike) : Nat :=
  (optCand "x" MediaKind.video ml.video).length
    + (optCand "x" MediaKind.video ml.animation).length
    + (optCand "x" MediaKind.audio ml.audio).length
    + (optCand "x" MediaKind.audio ml.voice).length
    + (optCand "x" MediaKind.video ml.video_note).length
    + (docCand "x" ml.document).length

/-- The non-photo tail of `buildMediaCandidates` for one message-like
object: `video`, `animation`, `audio`, `voice`, `video_note`, `document` in
source order. -/
def restCands (ml : MessageLike) (label : String) : List Candidate :=
  optCand label MediaKind.video ml.video
    ++ optCand label MediaKind.video ml.animation
    ++ optCand label MediaKind.audio ml.audio
    ++ optCand label MediaKind.audio ml.voice
    ++ optCand label MediaKind.video ml.video_note
    ++ docCand label ml.document

/-- A message-like object carrying both a voice note and a video note: its
candidate list puts an audio candidate before a video candidate. -/
def voiceNoteMsg : MessageLike :=
  { photo := []
    video := none
    animation := none
    audio := none
    voice := some { file_id := some "v" }
    video_note := some { file_id := some "n" }
    document := none }

/-- Concrete message for cascade scenarios: two photo sizes (ids "s" then
"l", ascending size) and a video (id "vid"), no reply or quote.  Its
candidate list is image "l", image "s", video "vid". -/
def msg3 : TgFullMessage :=
  { base :=
      { photo := [{ file_id := some "s", file_size := 100 },
                  { file_id := some "l", file_size := 900 }]
        video := some { file_id := some "vid" }
        animation := none
        audio := none
        voice := none
        video_note := none
        document := none }
    reply_to_message := none
    external_reply := none }

/-- Upload oracle: the largest photo is rejected as too big, the smaller
photo uploads fine. -/
def cascadeOracleOk : Candidate → Except String MaxAttachment := fun c =>
  if c.fileId == "l" then Except.error "File is too big"
  else if c.fileId == "s" then Except.ok { payload := "att-s" }
  else Except.ok { payload := "att-vid" }

/-- Upload oracle on which every candidate fails, one failure being a
too-big error. -/
def cascadeOracleFail : Candidate → Except String MaxAttachment := fun c =>
  if c.fileId == "l" then Except.error "File is too big"
  else Except.error "Telegram getFile HTTP 404"

/-- The claim's timing hypothesis for album events: starting from the
previous arrival instant, each next event arrives no earlier than the
previous one and strictly within the collection window of it. -/
def timesOk (collectMs : Nat) : Nat → List (Nat × TgMessage) → Bool
  | _, [] => true
  | tprev, (t, _) :: rest =>
      (decide (tprev ≤ t) && decide (t < tprev + collectMs)) && timesOk collectMs t rest

/-- The arrival instant of the last event, seeded with the first one's. -/
def lastTime (t0 : Nat) : List (Nat × TgMessage) → Nat
  | [] => t0
  | (t, _) :: rest => lastTime t rest

/-- The arrival-order accumulation of `collectMediaGroup` over a run of
same-key events: append each message unless its `message_id` is already
present. -/
def dedupInto (msgs : List TgMessage) : List TgMessage → List TgMessage
  | [] => msgs
  | m :: rest =>
      dedupInto
        (if List.any msgs (fun it => it.message_id == m.message_id) then msgs
         else msgs ++ [m]) rest

/-- An album message in chat 1 with media group id "album" and the given
message id. -/
def albumMsg (i : Int) : TgMessage :=
  { chatId := 1, message_id := i, media_group_id := some "album" }

/- ===================== Route table and dispatch =========================
   Embeds the dispatch engine of the multi-route bridge runtime (the
   `bridge.js` source carried inside the repository README):
   `normalizeUsername`, the per-route option fallbacks `getRouteDelayMs` /
   `getRouteMediaGroupCollectMs` / `getRouteIncludeFooter`,
   `matchTelegramSource`, `getEnabledRoutes`, `findTelegramRoutes`, the
   per-route fan-out loop of its `onTelegramMessage`, and its per-route
   `collectMediaGroup` buffer keyed by `routeId:chatId:mediaGroupId`.  The
   route-config generator `createRoutes` is embedded from the bridge-init
   script. -/

/-- A route's source matcher: network tag plus optional numeric chat id and
optional textual handle, as generated by `createRoutes`. -/
structure SourceMatcher where
  network : String
  chat_id : Option Int
  chat_username : Option String
deriving DecidableEq, Repr

/-- A route destination: network tag and one target identity. -/
structure RouteDestination where
  network : String
  chat_id : Option Int
  user_id : Option Int
deriving DecidableEq, Repr

/-- Per-route options of a validated route: every field is optional
(`validateRoute` keeps `route.options || {}`), falling back per field to the
app-level defaults (bridge runtime `getRoute*` helpers).  The validator
enforces non-negative millisecond values, hence `Nat`.  `createRoutes`
writes all three fields. -/
structure RouteOptions where
  repost_delay_ms : Option Nat
  media_group_collect_ms : Option Nat
  include_telegram_footer : Option Bool
deriving DecidableEq, Repr

/-- A configured route of the generated routing config. -/
structure Route where
  id : String
  enabled : Bool
  source : SourceMatcher
  destinations : List RouteDestination
  options : RouteOptions
deriving DecidableEq, Repr

/-- Whitespace trimming on a character list (JS `String.prototype.trim`). -/
def trimChars (l : List Char) : List Char :=
  ((l.dropWhile Char.isWhitespace).reverse.dropWhile Char.isWhitespace).reverse

/-- `normalizeUsername` (bridge-init line 16):
`String(value || '').replace(/^@/, '').trim().toLowerCase()` — drop one
leading sigil, trim, lowercase. -/
def normalizeUsername (s : String) : String :=
  let noSigil :=
    match s.data with
    | '@' :: rest => rest
    | l => l
  String.mk ((trimChars noSigil).map Char.toLower)

/-- A discovered Telegram source channel (bridge-init lines 97-100). -/
structure TgSource where
  chat_id : Int
  chat_username : Option String
  title : Option String
deriving DecidableEq, Repr

/-- A discovered MAX destination channel (bridge-init lines 125-129). -/
structure MaxDestination where
  chat_id : Int
  title : Option String
  link : Option String
deriving DecidableEq, Repr

/-- The bridge-init defaults applied to every generated route. -/
structure BridgeInitConfig where
  defaultRepostDelayMs : Nat
  defaultMediaGroupCollectMs : Nat
  defaultIncludeTelegramFooter : Bool
deriving DecidableEq, Repr

/-- `createRoutes` (bridge-init lines 141-170): the cross product of
discovered Telegram sources and MAX destinations, each route enabled, with
one destination and the configured default options. -/
def createRoutes (cfg : BridgeInitConfig) (tgSources : List TgSource)
    (maxDestinations : List MaxDestination) : List Route :=
  tgSources.foldl
    (fun routes tg =>
      routes ++ maxDestinations.map (fun mx =>
        { id := "auto_tg_" ++ toString tg.chat_id.natAbs
            ++ "_to_max_" ++ toString mx.chat_id.natAbs
          enabled := true
          source :=
            { network := "telegram"
              chat_id := some tg.chat_id
              chat_username := tg.chat_username }
          destinations :=
            [{ network := "max", chat_id := some mx.chat_id, user_id := none }]
          options :=
            { repost_delay_ms := some cfg.defaultRepostDelayMs
              media_group_collect_ms := some cfg.defaultMediaGroupCollectMs
              include_telegram_footer := some cfg.defaultIncludeTelegramFooter } }))
    []

/-- A Telegram message as read by the bridge runtime's dispatch: its chat id
and optional chat username, its message id, and its optional album id. -/
structure BridgeTgMessage where
  chatId : Int
  chatUsername : Option String
  message_id : Int
  media_group_id : Option String
deriving DecidableEq, Repr

/-- `getRouteDelayMs` (bridge runtime): the route's own
`options.repost_delay_ms` when present, else the configured app default. -/
def getRouteDelayMs (defaultRepostDelayMs : Nat) (route : Route) : Nat :=
  match route.options.repost_delay_ms with
  | some n => n
  | none => defaultRepostDelayMs

/-- `getRouteMediaGroupCollectMs` (bridge runtime): per-route album window,
falling back to the app default. -/
def getRouteMediaGroupCollectMs (defaultMediaGroupCollectMs : Nat)
    (route : Route) : Nat :=
  match route.options.media_group_collect_ms with
  | some n => n
  | none => defaultMediaGroupCollectMs

/-- `getRouteIncludeFooter` (bridge runtime): per-route footer flag, falling
back to the app default. -/
def getRouteIncludeFooter (defaultIncludeTelegramFooter : Bool)
    (route : Route) : Bool :=
  match route.options.include_telegram_footer with
  | some b => b
  | none => defaultIncludeTelegramFooter

/-- `matchTelegramSource` (bridge runtime): a non-telegram source never
matches; a numeric `chat_id` constraint and a `chat_username` constraint
with non-empty trim are each accumulated into `matched` when present, and at
least one constraint must be present.  Both usernames pass through
`normalizeUsername(value || '')`, so a constraint that normalizes to the
empty string (such as "@") matches a username-less chat — both sides
normalize to "". -/
def matchTelegramSource (source : SourceMatcher) (m : BridgeTgMessage) : Bool :=
  if !(source.network == "telegram") then false
  else
    let idActive := source.chat_id.isSome
    let idMatched :=
      match source.chat_id with
      | some c => c == m.chatId
      | none => true
    let userActive :=
      match source.chat_username with
      | some u => decide (0 < (trimChars u.data).length)
      | none => false
    let userMatched :=
      match source.chat_username with
      | some u =>
          if 0 < (trimChars u.data).length then
            normalizeUsername u == normalizeUsername (m.chatUsername.getD "")
          else true
      | none => true
    (idActive || userActive) && (idMatched && userMatched)

/-- `getEnabledRoutes` (bridge runtime): `enabled !== false`; the validator
normalizes `enabled` to a boolean, embedded as `Bool`. -/
def getEnabledRoutes (routes : List Route) : List Route :=
  routes.filter (fun route => route.enabled)

/-- `findTelegramRoutes` (bridge runtime): the enabled routes whose source
matches the message. -/
def findTelegramRoutes (routes : List Route) (m : BridgeTgMessage) :
    List Route :=
  (getEnabledRoutes routes).filter
    (fun route => matchTelegramSource route.source m)

/-- A bridge queue item as pushed by `enqueueSingle`: its kind tag, the
route it was fanned out to (carrying that route's own options), its
per-route scheduled instant, and the message. -/
structure BridgeQueueItem where
  kind : String
  route : Route
  runAt : Nat
  message : BridgeTgMessage
deriving DecidableEq, Repr

/-- One entry of the bridge runtime's `mediaGroupBuffer`. -/
structure BridgeBufEntry where
  messages : List BridgeTgMessage
  expiry : Nat
deriving DecidableEq, Repr

/-- The bridge runtime's `mediaGroupBuffer` `Map`, insertion-ordered. -/
abbrev BridgeBuffer := List (String × BridgeBufEntry)

/-- `Map.get` on the bridge buffer. -/
def bridgeBufGet (buf : BridgeBuffer) (k : String) : Option BridgeBufEntry :=
  match List.find? (fun kv => kv.1 == k) buf with
  | some kv => some kv.2
  | none => none

/-- `Map.set` on the bridge buffer. -/
def bridgeBufSet (buf : BridgeBuffer) (k : String) (v : BridgeBufEntry) :
    BridgeBuffer :=
  if List.any buf (fun kv => kv.1 == k) then
    List.map (fun kv => if kv.1 == k then (k, v) else kv) buf
  else buf ++ [(k, v)]

/-- The bridge runtime's album key: the template literal
`route.id:chat.id:media_group_id` — per route, so each matching route gets
its own buffer entry. -/
def mkBridgeKey (route : Route) (m : BridgeTgMessage) : String :=
  route.id ++ ":" ++ toString m.chatId ++ ":" ++
    (match m.media_group_id with
     | some s => s
     | none => "undefined")

/-- JS truthiness of `message.media_group_id` for bridge messages. -/
def bridgeMgTruthy (m : BridgeTgMessage) : Bool :=
  match m.media_group_id with
  | some s => !(s == "")
  | none => false

/-- The bridge runtime's per-route `collectMediaGroup` without the timer
callback: per-route key lookup, dedupe by `message_id`, window timer re-armed
to `now + getRouteMediaGroupCollectMs(route)`. -/
def bridgeCollectStep (defaultCollectMs now : Nat) (route : Route)
    (buf : BridgeBuffer) (m : BridgeTgMessage) : BridgeBuffer :=
  let key := mkBridgeKey route m
  let existing := (bridgeBufGet buf key).getD { messages := [], expiry := 0 }
  let msgs :=
    if List.any existing.messages (fun it => it.message_id == m.message_id) then
      existing.messages
    else existing.messages ++ [m]
  bridgeBufSet buf key
    { messages := msgs
      expiry := now + getRouteMediaGroupCollectMs defaultCollectMs route }

/-- The queue and album buffer of the bridge runtime's `state`. -/
structure BridgeRuntimeState where
  queue : List BridgeQueueItem
  buffer : BridgeBuffer
deriving DecidableEq

/-- The body of the bridge runtime's per-route fan-out loop for one matched
route: collect into that route's own album buffer entry, or enqueue a single
item at `now + getRouteDelayMs(route)` (`enqueueSingle`). -/
def bridgeStep (defaultRepostDelayMs defaultCollectMs now : Nat)
    (m : BridgeTgMessage) (st : BridgeRuntimeState) (route : Route) :
    BridgeRuntimeState :=
  if bridgeMgTruthy m then
    { st with buffer := bridgeCollectStep defaultCollectMs now route st.buffer m }
  else
    { st with queue := st.queue ++
        [{ kind := "telegram_single", route := route
           runAt := now + getRouteDelayMs defaultRepostDelayMs route
           message := m }] }

/-- The bridge runtime's `onTelegramMessage`: find the matching enabled
routes; none → rate-limited drop log and return; otherwise run the fan-out
loop once per matching route, independently. -/
def bridgeOnTelegramMessage (routes : List Route)
    (defaultRepostDelayMs defaultCollectMs now : Nat)
    (st : BridgeRuntimeState) (m : BridgeTgMessage) : BridgeRuntimeState :=
  let matched := findTelegramRoutes routes m
  if matched.isEmpty then st
  else matched.foldl (bridgeStep defaultRepostDelayMs defaultCollectMs now m) st

/-- Bridge-init defaults used in concrete route scenarios. -/
def cfg0 : BridgeInitConfig :=
  { defaultRepostDelayMs := 3000
    defaultMediaGroupCollectMs := 1200
    defaultIncludeTelegramFooter := true }

/-- A discovered Telegram source channel used in concrete scenarios. -/
def tg0 : TgSource :=
  { chat_id := -100123, chat_username := some "chan", title := none }

/-- First discovered MAX destination. -/
def maxDest1 : MaxDestination := { chat_id := 10, title := none, link := none }

/-- Second discovered MAX destination. -/
def maxDest2 : MaxDestination := { chat_id := 20, title := none, link := none }

/-- A disabled route targeting the same source chat. -/
def disabledRoute : Route :=
  { id := "off"
    enabled := false
    source :=
      { network := "telegram", chat_id := some (-100123), chat_username := none }
    destinations := [{ network := "max", chat_id := some 99, user_id := none }]
    options :=
      { repost_delay_ms := none
        media_group_collect_ms := none
        include_telegram_footer := none } }

/-- An inbound Telegram message from `tg0`'s chat, handle differing only in
case. -/
def bridgeMsg0 : BridgeTgMessage :=
  { chatId := -100123, chatUsername := some "Chan", message_id := 1
    media_group_id := none }

/-- The route table of the concrete fan-out scenario: the two generated
routes plus a disabled one. -/
def bridgeRoutes0 : List Route :=
  createRoutes cfg0 [tg0] [maxDest1, maxDest2] ++ [disabledRoute]

/- ===================== Entity tree ======================================
   Embeds `buildEntityTree` from src/index.js (lines 247-287): filter the
   raw entities, sort by (offset ascending, length descending), then a
   stack-based containment walk.  The JS tree is built by mutating
   `parent.children` in place while the parent sits on the stack; here each
   still-open node carries the closed subtrees of its children, and closing a
   node folds it into its parent — producing the same tree.  `popDueF` is the
   `while (stack.length && entity.offset >= top.end) stack.pop()` loop, with
   a fuel argument bounded by the stack length so that it stays structurally
   recursive; popping the bottom (root) element parks the finished tree in
   the `Option ETree` component, mirroring the JS loop, though the filter
   bounds make that unreachable. -/

/-- A raw Telegram entity as passed to `buildEntityTree`: style kind, offset
and length (JS numbers, here `Int`; the non-number/non-finite filter cases
are unrepresentable), optional url. -/
structure RawEntity where
  type : String
  offset : Int
  length : Int
  url : Option String
deriving DecidableEq, Repr

/-- An entity after the `{ ...entity, end: offset + length }` map step. -/
structure Ent where
  type : String
  offset : Int
  length : Int
  endO : Int
  url : Option String
deriving DecidableEq, Repr

/-- The `end`-adding map step of `buildEntityTree`. -/
def toEnt (e : RawEntity) : Ent :=
  { type := e.type, offset := e.offset, length := e.length
    endO := e.offset + e.length, url := e.url }

/-- The entity filter of `buildEntityTree` (src/index.js lines 257-262):
positive length, non-negative offset, range within the text. -/
def entOk (textLength : Int) (e : RawEntity) : Bool :=
  decide (0 < e.length) && decide (0 ≤ e.offset)
    && decide (e.offset + e.length ≤ textLength)

/-- The sort comparator of `buildEntityTree` (src/index.js lines 264-267):
offset ascending, then length descending. -/
def entLE (a b : Ent) : Prop :=
  a.offset < b.offset ∨ (a.offset = b.offset ∧ b.length ≤ a.length)

instance : DecidableRel entLE := fun a b =>
  inferInstanceAs
    (Decidable (a.offset < b.offset ∨ (a.offset = b.offset ∧ b.length ≤ a.length)))

instance : IsTotal Ent entLE where
  total := by
    intro a b
    rcases lt_trichotomy a.offset b.offset with h | h | h
    · exact Or.inl (Or.inl h)
    · rcases le_total b.length a.length with hl | hl
      · exact Or.inl (Or.inr ⟨h, hl⟩)
      · exact Or.inr (Or.inr ⟨h.symm, hl⟩)
    · exact Or.inr (Or.inl h)

instance : IsTrans Ent entLE where
  trans := by
    intro a b c hab hbc
    rcases hab with h1 | ⟨h1, h1l⟩ <;> rcases hbc with h2 | ⟨h2, h2l⟩
    · exact Or.inl (lt_trans h1 h2)
    · exact Or.inl (h2 ▸ h1)
    · exact Or.inl (h1 ▸ h2)
    · exact Or.inr ⟨h1.trans h2, le_trans h2l h1l⟩

/-- The entity tree: node data plus children, as returned by
`buildEntityTree`. -/
inductive ETree where
  | node (type : String) (offset length endO : Int) (url : Option String)
      (children : List ETree)

/-- A still-open tree node on the containment stack: its data plus the
already-closed subtrees of its children. -/
structure OpenNode where
  ty : String
  offset : Int
  length : Int
  endO : Int
  url : Option String
  children : List ETree

/-- Closes an open node into a tree node. -/
def toTree (o : OpenNode) : ETree :=
  ETree.node o.ty o.offset o.length o.endO o.url o.children

/-- The entity data of an open node. -/
def openSpan (o : OpenNode) : Ent :=
  { type := o.ty, offset := o.offset, length := o.length
    endO := o.endO, url := o.url }

/-- The (offset, end) range of an open node. -/
def projR (o : OpenNode) : Int × Int := (o.offset, o.endO)

mutual

/-- All entity data in a tree, the node's own included. -/
def nodeSpans : ETree → List Ent
  | ETree.node ty o len e u cs =>
      { type := ty, offset := o, length := len, endO := e, url := u }
        :: forestSpans cs

/-- All entity data in a forest. -/
def forestSpans : List ETree → List Ent
  | [] => []
  | t :: ts => nodeSpans t ++ forestSpans ts

end

/-- All entity data strictly below a tree's root — i.e. the spans the built
tree contains, the synthetic root excluded. -/
def spansBelow : ETree → List Ent
  | ETree.node _ _ _ _ _ cs => forestSpans cs

/-- The pop loop of the containment walk (src/index.js lines 272-274): while
the stack is non-empty and the entity starts at or after the top's end, pop
the top, folding it into its parent (in JS the child list was already shared
by reference); popping the bottom element parks the finished tree aside.
`fuel` bounds the number of pops; `stack.length` is always enough. -/
def popDueF (off : Int) : Nat → List OpenNode → Option ETree →
    List OpenNode × Option ETree
  | 0, stack, done => (stack, done)
  | Nat.succ fuel, stack, done =>
      match stack with
      | [] => ([], done)
      | t :: rest =>
          if t.endO ≤ off then
            match rest with
            | [] => ([], some (toTree t))
            | p :: rs =>
                popDueF off fuel
                  ({ p with children := p.children ++ [toTree t] } :: rs) done
          else (t :: rest, done)

/-- The freshly-pushed open node for an entity: its data with no children
yet (the `{ ...entity, children: [] }` object of the map step, as pushed). -/
def mkOpen (e : Ent) : OpenNode :=
  { ty := e.type, offset := e.offset, length := e.length
    endO := e.endO, url := e.url, children := [] }

/-- One iteration of the containment walk (src/index.js lines 271-284): pop
due ancestors, then attach-and-push the entity if its range lies within the
new stack top's range, else drop it. -/
def stepEnt (st : List OpenNode × Option ETree) (e : Ent) :
    List OpenNode × Option ETree :=
  match popDueF e.offset st.1.length st.1 st.2 with
  | ([], done) => ([], done)
  | (top :: rest, done) =>
      if e.offset < top.offset || top.endO < e.endO then (top :: rest, done)
      else (mkOpen e :: top :: rest, done)

/-- Folds the still-open stack into a finished tree at the end of the walk:
each open node closes into its parent, bottom-up. -/
def closeUp : ETree → List OpenNode → ETree
  | acc, [] => acc
  | acc, p :: rs =>
      closeUp (toTree { p with children := p.children ++ [acc] }) rs

/-- Finishes the whole stack; the empty stack is unreachable (the root is
never popped). -/
def closeAll : List OpenNode → ETree
  | [] => ETree.node "root" 0 0 0 none []
  | t :: rest => closeUp (toTree t) rest

/-- The synthetic root node of `buildEntityTree` (src/index.js lines
248-254): type root, offset 0, length and end the text length. -/
def rootNode (textLength : Int) : OpenNode :=
  { ty := "root", offset := 0, length := textLength, endO := textLength
    url := none, children := [] }

/-- `buildEntityTree` (src/index.js lines 247-287): synthetic root spanning
the text, filter, sort, stack-based containment walk. -/
def buildEntityTree (textLength : Int) (entities : List RawEntity) : ETree :=
  let sorted :=
    List.insertionSort entLE ((entities.filter (entOk textLength)).map toEnt)
  let result := sorted.foldl stepEnt ([rootNode textLength], none)
  match result.2 with
  | some t => t
  | none => closeAll result.1

/-- Non-crossing of two ranges: disjoint in either order or nested in either
order (the spec's "well-formed, non-crossing spans"). -/
def ncR (a b : Int × Int) : Prop :=
  a.2 ≤ b.1 ∨ b.2 ≤ a.1 ∨ (a.1 ≤ b.1 ∧ b.2 ≤ a.2) ∨ (b.1 ≤ a.1 ∧ a.2 ≤ b.2)

instance (a b : Int × Int) : Decidable (ncR a b) :=
  inferInstanceAs (Decidable (_ ∨ _ ∨ _ ∨ _))

/-- Non-crossing of two entities. -/
def noncross (a b : Ent) : Prop :=
  ncR (a.offset, a.endO) (b.offset, b.endO)

instance (a b : Ent) : Decidable (noncross a b) :=
  inferInstanceAs (Decidable (ncR _ _))

/-- The spans-as-seen-from-the-final-tree of an open stack, excluding the
bottom (root) element's own data: every already-closed subtree plus the data
of every open node above the bottom. -/
def stackSpansBelow : List OpenNode → List Ent
  | [] => []
  | [b] => forestSpans b.children
  | t :: p :: rs =>
      (openSpan t :: forestSpans t.children) ++ stackSpansBelow (p :: rs)

/-- A full-body bold span over a 10-codepoint body. -/
def entBold : RawEntity := { type := "bold", offset := 0, length := 5, url := none }

/-- An italic span nested inside `entBold`. -/
def entItalic : RawEntity := { type := "italic", offset := 1, length := 2, url := none }

/-- A span with a negative offset, dropped by the filter. -/
def entNegative : RawEntity := { type := "code", offset := -1, length := 3, url := none }

/-- A span overrunning the body, dropped by the filter. -/
def entOverflow : RawEntity := { type := "pre", offset := 6, length := 100, url := none }

theorem processQueue_fst (deliver : QueueItem → Except String Unit) :
    ∀ (q : List QueueItem) (clock : Nat),
      (processQueue deliver clock q).map (fun p => p.1) = q := by
  intro q
  induction q with
  | nil => intro clock; rfl
  | cons x rest ih =>
      intro clock
      simp [processQueue, ih]

theorem processQueue_wake_times (deliver : QueueItem → Except String Unit) :
    ∀ (q : List QueueItem) (clock : Nat),
      List.Chain' (· ≤ ·)
        ((processQueue deliver clock q).map (fun p => p.2.1)) ∧
      (∀ x ∈ (processQueue deliver clock q).map (fun p => p.2.1), clock ≤ x) := by
  intro q
  induction q with
  | nil => intro clock; exact ⟨List.chain'_nil, by intro x hx; simp [processQueue] at hx⟩
  | cons a rest ih =>
      intro clock
      obtain ⟨hchain, hlb⟩ := ih (max clock a.runAt)
      constructor
      · simp only [processQueue, List.map_cons]
        apply List.chain'_cons'.2
        refine ⟨?_, hchain⟩
        intro y hy
        have : y ∈ (processQueue deliver (max clock a.runAt) rest).map
            (fun p => p.2.1) := by
          exact List.mem_of_mem_head? hy
        exact hlb y this
      · intro x hx
        simp only [processQueue, List.map_cons, List.mem_cons] at hx
        rcases hx with h | h
        · subst h; exact le_max_left _ _
        · exact le_trans (le_max_left _ _) (hlb x h)

theorem enqueueAll_eq_map (delay : Nat) (evs : List (Nat × String)) :
    enqueueAll delay evs
      = evs.map (fun e => { runAt := e.1 + delay, tag := e.2 }) := by
  have aux : ∀ (l : List (Nat × String)) (acc : List QueueItem),
      l.foldl (fun q e => q ++ [{ runAt := e.1 + delay, tag := e.2 }]) acc
        = acc ++ l.map (fun e => { runAt := e.1 + delay, tag := e.2 }) := by
    intro l
    induction l with
    | nil => intro acc; simp
    | cons x rest ih =>
        intro acc
        simp [ih]
  simpa [enqueueAll, enqueueMessage] using aux evs []

/-- C1 counterexample: with the queue holding A (scheduledAt 5000) ahead of B
(scheduledAt 101), the worker loop of src/index.js delivers A first and B
second — it takes the HEAD of the queue, not the item with the smallest
`scheduledAt`, so B is NOT delivered before A and the delivered `scheduledAt`
sequence 5000, 101 is not non-decreasing. -/
theorem processQueue_head_not_min :
    (processQueue (fun _ => Except.ok ()) 0 [itemA, itemB]).map (fun p => p.1)
        = [itemA, itemB]
      ∧ itemB.runAt < itemA.runAt
      ∧ ¬ List.Chain' (· ≤ ·)
          ((processQueue (fun _ => Except.ok ()) 0 [itemA, itemB]).map
            (fun p => p.1.runAt)) := by
  refine ⟨rfl, by decide, ?_⟩
  intro h
  simp [processQueue, itemA, itemB] at h

/-- C1 amended: the worker delivers items in FIFO enqueue order (it never
re-selects a minimum), and because every enqueue uses the one configured
`repostDelayMs`, the queue's `runAt` values are non-decreasing in enqueue
order whenever the enqueue wall-clock times are; hence delivery still happens
in non-decreasing `scheduledAt` order, and the worker's wake times are
non-decreasing as well. -/
theorem processQueue_fifo_monotone (delay clock : Nat)
    (deliver : QueueItem → Except String Unit) (evs : List (Nat × String))
    (hmono : List.Chain' (fun a b => a.1 ≤ b.1) evs) :
    (processQueue deliver clock (enqueueAll delay evs)).map (fun p => p.1)
        = enqueueAll delay evs
      ∧ List.Chain' (fun a b => a.runAt ≤ b.runAt) (enqueueAll delay evs)
      ∧ List.Chain' (· ≤ ·)
          ((processQueue deliver clock (enqueueAll delay evs)).map
            (fun p => p.2.1)) := by
  refine ⟨processQueue_fst deliver _ clock, ?_, (processQueue_wake_times deliver _ clock).1⟩
  rw [enqueueAll_eq_map]
  rw [List.chain'_map]
  exact hmono.imp (fun _ _ hab => Nat.add_le_add_right hab delay)

/-- C1 amended witness: the A-then-B enqueue trace of the spec scenario, with
the code's single constant delay (3000 ms): delivery happens in enqueue order
with non-decreasing scheduled instants. -/
theorem processQueue_fifo_monotone_witness :
    (processQueue (fun _ => Except.ok ()) 0 (enqueueAll 3000 [(0, "A"), (1, "B")])).map
        (fun p => p.1) = enqueueAll 3000 [(0, "A"), (1, "B")]
      ∧ List.Chain' (fun a b => a.runAt ≤ b.runAt) (enqueueAll 3000 [(0, "A"), (1, "B")])
      ∧ List.Chain' (· ≤ ·)
          ((processQueue (fun _ => Except.ok ()) 0
              (enqueueAll 3000 [(0, "A"), (1, "B")])).map (fun p => p.2.1)) :=
  processQueue_fifo_monotone 3000 0 (fun _ => Except.ok ()) [(0, "A"), (1, "B")]
    (by simp [List.chain'_cons])

/-- C8: delivery failures never abort the worker loop and a failed item is not
retried: whatever the delivery oracle does (including throwing, i.e. returning
`Except.error`, on any subset of items), the loop attempts every queued item
exactly once, in order, and reaches the end of the queue. -/
theorem processQueue_failures_do_not_abort
    (deliver : QueueItem → Except String Unit) (clock : Nat)
    (q : List QueueItem) :
    (processQueue deliver clock q).map (fun p => p.1) = q
      ∧ (processQueue deliver clock q).length = q.length
      ∧ ∀ i : QueueItem, ((processQueue deliver clock q).map (fun p => p.1)).count i
          = q.count i := by
  refine ⟨processQueue_fst deliver q clock, ?_, ?_⟩
  · have h := processQueue_fst deliver q clock
    calc (processQueue deliver clock q).length
        = ((processQueue deliver clock q).map (fun p => p.1)).length := by
          simp
      _ = q.length := by rw [h]
  · intro i
    rw [processQueue_fst deliver q clock]

/-- C9: with an empty configured id list `isAllowedSource` accepts every chat
id; with a non-empty list it accepts exactly the members; and
`onTelegramMessage` drops a disallowed message before touching the queue or
the album buffer, while an allowed message is buffered (album) or enqueued
(otherwise). -/
theorem isAllowedSource_gate (sourceChatIds : List Int)
    (repostDelay collectMs now : Nat) :
    (sourceChatIds = [] → ∀ c : Int, isAllowedSource sourceChatIds c = true)
      ∧ (sourceChatIds ≠ [] →
          ∀ c : Int, (isAllowedSource sourceChatIds c = true ↔ c ∈ sourceChatIds))
      ∧ (∀ (st : BridgeState) (m : TgMessage),
          isAllowedSource sourceChatIds m.chatId = false →
            onTelegramMessage sourceChatIds repostDelay collectMs now st m = st)
      ∧ (∀ (st : BridgeState) (m : TgMessage),
          isAllowedSource sourceChatIds m.chatId = true → mgTruthy m = false →
            onTelegramMessage sourceChatIds repostDelay collectMs now st m
              = { st with queue := st.queue ++ [(now + repostDelay, m)] })
      ∧ (∀ (st : BridgeState) (m : TgMessage),
          isAllowedSource sourceChatIds m.chatId = true → mgTruthy m = true →
            onTelegramMessage sourceChatIds repostDelay collectMs now st m
              = { st with buffer := collectStep collectMs now st.buffer m }) := by
  refine ⟨?_, ?_, ?_, ?_, ?_⟩
  · intro h c; subst h; rfl
  · intro h c
    simp [isAllowedSource, List.isEmpty_iff, h]
  · intro st m hm
    simp [onTelegramMessage, hm]
  · intro st m hm hg
    simp [onTelegramMessage, hm, hg]
  · intro st m hm hg
    simp [onTelegramMessage, hm, hg]

/-- C9 witness: the empty list admits chat 42; the list `[5]` admits 5 and a
message from chat 7 leaves the state untouched. -/
theorem isAllowedSource_gate_witness :
    isAllowedSource [] 42 = true
      ∧ isAllowedSource [5] 5 = true
      ∧ onTelegramMessage [5] 3000 1200 0 { queue := [], buffer := [] }
          { chatId := 7, message_id := 1, media_group_id := none }
          = { queue := [], buffer := [] } := by
  refine ⟨(isAllowedSource_gate [] 3000 1200 0).1 rfl 42, ?_, ?_⟩
  · exact ((isAllowedSource_gate [5] 3000 1200 0).2.1 (by decide) 5).mpr (by decide)
  · exact (isAllowedSource_gate [5] 3000 1200 0).2.2.1
      { queue := [], buffer := [] }
      { chatId := 7, message_id := 1, media_group_id := none } (by decide)

/-- C10: the text handed to the MAX send call is never empty — an empty
composed text is replaced by a single space, any other text passes through —
and the outbound options carry an `attachments` field exactly when the
resolved attachment list is non-empty. -/
theorem sendToMax_payload (text : String) (attachments : List MaxAttachment) :
    (sendToMax text attachments).1 ≠ ""
      ∧ (text = "" → (sendToMax text attachments).1 = " ")
      ∧ (text ≠ "" → (sendToMax text attachments).1 = text)
      ∧ (attachments = [] → (sendToMax text attachments).2.attachments = none)
      ∧ (attachments ≠ [] →
          (sendToMax text attachments).2.attachments = some attachments) := by
  refine ⟨?_, ?_, ?_, ?_, ?_⟩
  · by_cases h : text = ""
    · simp [sendToMax, h]
    · simp [sendToMax, h]
  · intro h; simp [sendToMax, h]
  · intro h; simp [sendToMax, h]
  · intro h; simp [sendToMax, h]
  · intro h
    have : attachments.length ≠ 0 := by
      simpa [List.length_eq_zero] using h
    simp [sendToMax, this]

/-- C10 witness: empty text with one attachment is sent as a single space
with the attachment list present; non-empty text with no attachments is sent
verbatim with no `attachments` field. -/
theorem sendToMax_payload_witness :
    (sendToMax "" [{ payload := "img" }]).1 = " "
      ∧ (sendToMax "" [{ payload := "img" }]).2.attachments
          = some [{ payload := "img" }]
      ∧ (sendToMax "hello" []).1 = "hello"
      ∧ (sendToMax "hello" []).2.attachments = none := by
  refine ⟨(sendToMax_payload "" [{ payload := "img" }]).2.1 rfl,
    (sendToMax_payload "" [{ payload := "img" }]).2.2.2.2 (by decide),
    (sendToMax_payload "hello" []).2.2.1 (by decide),
    (sendToMax_payload "hello" []).2.2.2.1 rfl⟩

theorem runCascade_all_fail (upload : Candidate → Except String MaxAttachment) :
    ∀ (cands : List Candidate) (flag : Bool),
      (∀ c ∈ cands, ∃ e, upload c = Except.error e) →
      runCascade upload cands flag
        = (cands,
           { attachments := []
             warningText :=
               if flag || cands.any (fun c => errTooBig (upload c)) then
                 tooBigWarning
               else unavailableWarning }) := by
  intro cands
  induction cands with
  | nil => intro flag _; simp [runCascade]
  | cons c rest ih =>
      intro flag h
      obtain ⟨e, he⟩ := h c (by simp)
      have hrest := ih (flag || isTooBigTelegramError e)
        (fun x hx => h x (by simp [hx]))
      simp [runCascade, he, hrest, errTooBig, Bool.or_assoc]

theorem runCascade_first_success (upload : Candidate → Except String MaxAttachment) :
    ∀ (pre : List Candidate) (c : Candidate) (post : List Candidate)
      (flag : Bool) (att : MaxAttachment),
      (∀ p ∈ pre, ∃ e, upload p = Except.error e) →
      upload c = Except.ok att →
      runCascade upload (pre ++ c :: post) flag
        = (pre ++ [c], { attachments := [att], warningText := "" }) := by
  intro pre
  induction pre with
  | nil => intro c post flag att _ hc; simp [runCascade, hc]
  | cons p rest ih =>
      intro c post flag att hpre hc
      obtain ⟨e, he⟩ := hpre p (by simp)
      have hrest := ih c post (flag || isTooBigTelegramError e) att
        (fun x hx => hpre x (by simp [hx])) hc
      simp [runCascade, he, hrest]

theorem runCascade_len (upload : Candidate → Except String MaxAttachment) :
    ∀ (cands : List Candidate) (flag : Bool),
      ((runCascade upload cands flag).2.attachments).length ≤ 1 := by
  intro cands
  induction cands with
  | nil => intro flag; simp [runCascade]
  | cons c rest ih =>
      intro flag
      cases hu : upload c with
      | ok att => simp [runCascade, hu]
      | error e =>
          simpa [runCascade, hu] using ih (flag || isTooBigTelegramError e)

/-- C3: the attachment cascade tries the ordered candidates strictly in
order; on the first candidate whose upload succeeds it returns exactly that
one attachment and no warning, attempting none of the later candidates; and
for every oracle and message the returned attachment list has length 0 or 1. -/
theorem buildAttachments_first_success
    (upload : Candidate → Except String MaxAttachment) (m : TgFullMessage)
    (pre post : List Candidate) (c : Candidate) (att : MaxAttachment)
    (hsplit : mediaCandidates m = pre ++ c :: post)
    (hpre : ∀ p ∈ pre, ∃ e, upload p = Except.error e)
    (hc : upload c = Except.ok att) :
    buildAttachments upload m = { attachments := [att], warningText := "" }
      ∧ buildAttachmentsTried upload m = pre ++ [c]
      ∧ ∀ (u : Candidate → Except String MaxAttachment) (m2 : TgFullMessage),
          ((buildAttachments u m2).attachments).length ≤ 1 := by
  have key := runCascade_first_success upload pre c post false att hpre hc
  have hie : (pre ++ c :: post).isEmpty = false := by
    cases pre <;> rfl
  refine ⟨?_, ?_, ?_⟩
  · simp only [buildAttachments, hsplit, hie, Bool.false_eq_true, if_false, key]
  · simp only [buildAttachmentsTried, hsplit, hie, Bool.false_eq_true, if_false, key]
  · intro u m2
    by_cases h : (mediaCandidates m2).isEmpty
    · simp [buildAttachments, h]
    · simp only [buildAttachments, eq_self_iff_true]
      rw [if_neg h]
      exact runCascade_len u (mediaCandidates m2) false

/-- C3 witness: on `msg3`, the first candidate (largest photo) fails as too
big, the second (smaller photo) succeeds: the result is that single
attachment with no warning, and only the first two candidates were tried. -/
theorem buildAttachments_first_success_witness :
    buildAttachments cascadeOracleOk msg3
        = { attachments := [{ payload := "att-s" }], warningText := "" }
      ∧ buildAttachmentsTried cascadeOracleOk msg3
          = [{ label := "message", kind := MediaKind.image, fileId := "l" },
             { label := "message", kind := MediaKind.image, fileId := "s" }] := by
  have h := buildAttachments_first_success cascadeOracleOk msg3
    [{ label := "message", kind := MediaKind.image, fileId := "l" }]
    [{ label := "message", kind := MediaKind.video, fileId := "vid" }]
    { label := "message", kind := MediaKind.image, fileId := "s" }
    { payload := "att-s" }
    rfl
    (by
      intro p hp
      simp only [List.mem_singleton] at hp
      subst hp
      exact ⟨"File is too big", rfl⟩)
    rfl
  exact ⟨h.1, h.2.1⟩

/-- C4: when every candidate's upload fails the resolver returns normally
with no attachments and a warning; the warning is the too-large wording
exactly when some failed attempt was classified as a "file is too big" error
(the two wordings differ), and the outer catch converts any unexpected
internal error to the generic internal warning. -/
theorem buildAttachments_all_fail
    (upload : Candidate → Except String MaxAttachment) (m : TgFullMessage)
    (hne : mediaCandidates m ≠ [])
    (hfail : ∀ c ∈ mediaCandidates m, ∃ e, upload c = Except.error e) :
    buildAttachments upload m
      = { attachments := []
          warningText :=
            if (mediaCandidates m).any (fun c => errTooBig (upload c)) then
              tooBigWarning
            else unavailableWarning }
      ∧ tooBigWarning ≠ unavailableWarning
      ∧ (∀ e : String, buildAttachmentsCaught (Except.error e)
          = { attachments := [], warningText := internalWarning }) := by
  refine ⟨?_, by decide, fun _ => rfl⟩
  have key := runCascade_all_fail upload (mediaCandidates m) false hfail
  have hie : (mediaCandidates m).isEmpty = false := by
    cases hmc : mediaCandidates m with
    | nil => exact absurd hmc hne
    | cons a l => rfl
  simp only [buildAttachments, hie, Bool.false_eq_true, if_false, key,
    Bool.false_or]

/-- C4 witness: on `msg3` with every upload failing (the largest photo with a
too-big error), the result is empty with the too-large warning; an internal
error becomes the internal warning. -/
theorem buildAttachments_all_fail_witness :
    buildAttachments cascadeOracleFail msg3
        = { attachments := [], warningText := tooBigWarning }
      ∧ buildAttachmentsCaught (Except.error "boom")
          = { attachments := [], warningText := internalWarning } := by
  have h := buildAttachments_all_fail cascadeOracleFail msg3
    (by decide)
    (by
      intro c hc
      have hmc : mediaCandidates msg3
          = [{ label := "message", kind := MediaKind.image, fileId := "l" },
             { label := "message", kind := MediaKind.image, fileId := "s" },
             { label := "message", kind := MediaKind.video, fileId := "vid" }] := rfl
      rw [hmc] at hc
      simp only [List.mem_cons, List.mem_singleton, List.not_mem_nil, or_false] at hc
      rcases hc with h1 | h1 | h1 <;> subst h1
      · exact ⟨"File is too big", rfl⟩
      · exact ⟨"Telegram getFile HTTP 404", rfl⟩
      · exact ⟨"Telegram getFile HTTP 404", rfl⟩)
  have hany : (mediaCandidates msg3).any (fun c => errTooBig (cascadeOracleFail c))
      = true := by decide
  refine ⟨?_, h.2.2 "boom"⟩
  rw [h.1, hany]
  simp

theorem optCand_dropLabel (l1 l2 : String) (kind : MediaKind) (r : Option MediaRef) :
    (optCand l1 kind r).map dropLabel = (optCand l2 kind r).map dropLabel := by
  cases r with
  | none => rfl
  | some ref =>
      cases href : ref.file_id with
      | none => simp [optCand, href]
      | some s =>
          by_cases h : 0 < s.length <;> simp [optCand, href, h, dropLabel]

theorem docCand_dropLabel (l1 l2 : String) (d : Option TgDocument) :
    (docCand l1 d).map dropLabel = (docCand l2 d).map dropLabel := by
  cases d with
  | none => rfl
  | some doc =>
      cases href : doc.file_id with
      | none => simp [docCand, href]
      | some s =>
          by_cases h : 0 < s.length <;> simp [docCand, href, h, dropLabel]

theorem photoCands_dropLabel (l1 l2 : String) (ml : MessageLike) :
    (photoCands ml l1).map dropLabel = (photoCands ml l2).map dropLabel := by
  simp only [photoCands, List.map_filterMap]
  apply List.filterMap_congr
  intro p _
  cases p.file_id with
  | none => rfl
  | some s => by_cases h : 0 < s.length <;> simp [h, dropLabel]

theorem bmc_dropLabel (om : Option MessageLike) (l1 l2 : String) :
    (buildMediaCandidates om l1).map dropLabel
      = (buildMediaCandidates om l2).map dropLabel := by
  cases om with
  | none => rfl
  | some ml =>
      simp only [buildMediaCandidates, List.map_append]
      rw [photoCands_dropLabel l1 l2, optCand_dropLabel l1 l2,
        optCand_dropLabel l1 l2, optCand_dropLabel l1 l2,
        optCand_dropLabel l1 l2, optCand_dropLabel l1 l2,
        docCand_dropLabel l1 l2]

theorem bmc_decomp (ml : MessageLike) (label : String) :
    buildMediaCandidates (some ml) label
      = photoCands ml label ++ restCands ml label := by
  simp [buildMediaCandidates, restCands, List.append_assoc]

theorem optCand_length (l : String) (kind : MediaKind) (r : Option MediaRef) :
    (optCand l kind r).length = (optCand "x" kind r).length := by
  cases r with
  | none => rfl
  | some ref =>
      cases href : ref.file_id with
      | none => simp [optCand, href]
      | some s => by_cases h : 0 < s.length <;> simp [optCand, href, h]

theorem docCand_length (l : String) (d : Option TgDocument) :
    (docCand l d).length = (docCand "x" d).length := by
  cases d with
  | none => rfl
  | some doc =>
      cases href : doc.file_id with
      | none => simp [docCand, href]
      | some s => by_cases h : 0 < s.length <;> simp [docCand, href, h]

theorem restCands_length (ml : MessageLike) (label : String) :
    (restCands ml label).length = nonPhotoCands ml := by
  simp only [restCands, nonPhotoCands, List.length_append]
  rw [optCand_length label, optCand_length label, optCand_length label,
    optCand_length label, optCand_length label, docCand_length label]

theorem mem_photoCands_kind (ml : MessageLike) (label : String) (c : Candidate)
    (hc : c ∈ photoCands ml label) : c.kind = MediaKind.image := by
  simp only [photoCands, List.mem_filterMap] at hc
  obtain ⟨p, _, he⟩ := hc
  cases hf : p.file_id with
  | none => simp [hf] at he
  | some s =>
      simp only [hf] at he
      by_cases h : 0 < s.length
      · rw [if_pos h] at he
        cases he
        rfl
      · rw [if_neg h] at he
        simp at he

theorem mem_optCand_kind (label : String) (kind : MediaKind) (r : Option MediaRef)
    (c : Candidate) (hc : c ∈ optCand label kind r) : c.kind = kind := by
  cases r with
  | none => simp [optCand] at hc
  | some ref =>
      cases href : ref.file_id with
      | none => simp [optCand, href] at hc
      | some s =>
          by_cases h : 0 < s.length
          · simp only [optCand, href, if_pos h, List.mem_singleton] at hc
            rw [hc]
          · simp [optCand, href, h] at hc

theorem resolveDocumentKind_ne_image (d : TgDocument) :
    resolveDocumentKind d ≠ MediaKind.image := by
  simp only [resolveDocumentKind]
  split
  · simp
  · split
    · simp
    · split
      · simp
      · split <;> simp

theorem mem_docCand_not_image (label : String) (d : Option TgDocument)
    (c : Candidate) (hc : c ∈ docCand label d) : c.kind ≠ MediaKind.image := by
  cases d with
  | none => simp [docCand] at hc
  | some doc =>
      cases href : doc.file_id with
      | none => simp [docCand, href] at hc
      | some s =>
          by_cases h : 0 < s.length
          · simp only [docCand, href, if_pos h, List.mem_singleton] at hc
            rw [hc]
            exact resolveDocumentKind_ne_image doc
          · simp [docCand, href, h] at hc

theorem mem_restCands_not_image (ml : MessageLike) (label : String)
    (c : Candidate) (hc : c ∈ restCands ml label) : c.kind ≠ MediaKind.image := by
  simp only [restCands, List.mem_append] at hc
  rcases hc with ((((h | h) | h) | h) | h) | h
  · rw [mem_optCand_kind _ _ _ _ h]; simp
  · rw [mem_optCand_kind _ _ _ _ h]; simp
  · rw [mem_optCand_kind _ _ _ _ h]; simp
  · rw [mem_optCand_kind _ _ _ _ h]; simp
  · rw [mem_optCand_kind _ _ _ _ h]; simp
  · exact mem_docCand_not_image _ _ _ h

theorem pairwise_rank_of_all_image :
    ∀ (l : List Candidate), (∀ c ∈ l, c.kind = MediaKind.image) →
      List.Pairwise (fun a b => kindRank a.kind ≤ kindRank b.kind) l := by
  intro l
  induction l with
  | nil => intro _; exact List.Pairwise.nil
  | cons a t ih =>
      intro h
      refine List.Pairwise.cons ?_ (ih fun c hc => h c (List.mem_cons_of_mem a hc))
      intro b hb
      rw [h a (List.mem_cons_self a t), h b (List.mem_cons_of_mem a hb)]

theorem pairwise_of_length_le_one {α : Type} (R : α → α → Prop) :
    ∀ (l : List α), l.length ≤ 1 → List.Pairwise R l := by
  intro l hl
  cases l with
  | nil => exact List.Pairwise.nil
  | cons a t =>
      cases t with
      | nil => exact List.pairwise_singleton R a
      | cons b u => simp at hl

/-- C6 counterexample: a message-like object with both a voice note (audio
kind) and a video note (video kind) yields, in src/index.js source order, an
audio candidate strictly before a video candidate, contradicting the claimed
image-video-audio-file priority ordering. -/
theorem buildMediaCandidates_kind_order_violated :
    buildMediaCandidates (some voiceNoteMsg) "message"
        = [{ label := "message", kind := MediaKind.audio, fileId := "v" },
           { label := "message", kind := MediaKind.video, fileId := "n" }]
      ∧ ¬ List.Pairwise (fun a b => kindRank a.kind ≤ kindRank b.kind)
          (buildMediaCandidates (some voiceNoteMsg) "message") := by
  constructor
  · rfl
  · decide

/-- C6 amended: across message-like objects the candidate list is the
message's own candidates followed by the reply's followed by the
quoted/external reference's (labels are positional and so can misname the
source when the reply is absent, which the claim does not mention).  Within
one message-like object the candidates follow the fixed src/index.js field
order — photo sizes (in reverse array order, i.e. largest first under the
network's size-ascending convention), video, animation, audio, voice,
video_note, document — so the claimed image-video-audio-file priority holds
whenever the object carries at most one non-photo media candidate (the shape
Telegram actually produces), the image candidates being exactly the
reverse-order photo candidates. -/
theorem mediaCandidates_order_amended :
    (∀ m : TgFullMessage,
        (mediaCandidates m).map dropLabel
          = (buildMediaCandidates (some m.base) "message").map dropLabel
            ++ (buildMediaCandidates m.reply_to_message "reply_to_message").map dropLabel
            ++ (buildMediaCandidates m.external_reply "external_reply").map dropLabel)
      ∧ (∀ (ml : MessageLike) (label : String), nonPhotoCands ml ≤ 1 →
          List.Pairwise (fun a b => kindRank a.kind ≤ kindRank b.kind)
            (buildMediaCandidates (some ml) label))
      ∧ (∀ (ml : MessageLike) (label : String),
          ((buildMediaCandidates (some ml) label).filter
              (fun c => c.kind == MediaKind.image)).map (fun c => c.fileId)
            = (photoCands ml label).map (fun c => c.fileId)) := by
  refine ⟨?_, ?_, ?_⟩
  · intro m
    cases hre : m.reply_to_message with
    | some r =>
        cases hex : m.external_reply with
        | some e =>
            simp [mediaCandidates, getMessageCandidates, hre, hex, List.get?]
        | none =>
            simp [mediaCandidates, getMessageCandidates, hre, hex, List.get?,
              buildMediaCandidates]
    | none =>
        cases hex : m.external_reply with
        | some e =>
            have hb := bmc_dropLabel (some e) "reply_to_message" "external_reply"
            have hnone : ∀ l : String, buildMediaCandidates none l = [] :=
              fun _ => rfl
            simp [mediaCandidates, getMessageCandidates, hre, hex, List.get?,
              hnone, hb]
        | none =>
            simp [mediaCandidates, getMessageCandidates, hre, hex, List.get?,
              buildMediaCandidates]
  · intro ml label hle
    rw [bmc_decomp]
    rw [List.pairwise_append]
    refine ⟨pairwise_rank_of_all_image _ (mem_photoCands_kind ml label), ?_, ?_⟩
    · apply pairwise_of_length_le_one
      rw [restCands_length]
      exact hle
    · intro a ha b _
      rw [mem_photoCands_kind ml label a ha]
      exact Nat.zero_le _
  · intro ml label
    rw [bmc_decomp, List.filter_append]
    have h1 : (photoCands ml label).filter (fun c => c.kind == MediaKind.image)
        = photoCands ml label := by
      apply List.filter_eq_self.mpr
      intro c hc
      rw [mem_photoCands_kind ml label c hc]
      rfl
    have h2 : (restCands ml label).filter (fun c => c.kind == MediaKind.image)
        = [] := by
      apply List.filter_eq_nil_iff.mpr
      intro c hc
      have := mem_restCands_not_image ml label c hc
      simpa using this
    rw [h1, h2, List.append_nil]

/-- C6 amended witness: on the base object of `msg3` (two photos and one
video, i.e. at most one non-photo candidate) the priority ordering holds and
the image candidates are exactly the reverse-order photo candidates. -/
theorem mediaCandidates_order_amended_witness :
    List.Pairwise (fun a b => kindRank a.kind ≤ kindRank b.kind)
        (buildMediaCandidates (some msg3.base) "message")
      ∧ ((buildMediaCandidates (some msg3.base) "message").filter
            (fun c => c.kind == MediaKind.image)).map (fun c => c.fileId)
          = (photoCands msg3.base "message").map (fun c => c.fileId) :=
  ⟨mediaCandidates_order_amended.2.1 msg3.base "message" (by decide),
   mediaCandidates_order_amended.2.2 msg3.base "message"⟩

theorem simulateCollect_single_key (collectMs repostDelay : Nat) (k : String) :
    ∀ (evs : List (Nat × TgMessage)) (msgs : List TgMessage) (tprev : Nat),
      (∀ p ∈ evs, mkKey p.2 = k) →
      timesOk collectMs tprev evs = true →
      simulateCollect collectMs repostDelay
          [(k, { messages := msgs, expiry := tprev + collectMs })] evs
        = ([{ runAt := lastTime tprev evs + collectMs + repostDelay
              messages := List.insertionSort msgLE
                (dedupInto msgs (evs.map (fun p => p.2))) }],
           []) := by
  intro evs
  induction evs with
  | nil =>
      intro msgs tprev _ _
      simp [simulateCollect, fireEntry, lastTime, dedupInto]
  | cons p rest ih =>
      obtain ⟨t, m⟩ := p
      intro msgs tprev hkey ht
      simp only [timesOk, Bool.and_eq_true, decide_eq_true_eq] at ht
      obtain ⟨⟨hle, hlt⟩, htrest⟩ := ht
      have hkm : mkKey m = k := hkey (t, m) (by simp)
      have hnle : ¬ (tprev + collectMs ≤ t) := by omega
      have hfire : fireDue repostDelay t
          [(k, { messages := msgs, expiry := tprev + collectMs })]
          = ([(k, { messages := msgs, expiry := tprev + collectMs })], []) := by
        simp [fireDue, hlt, hnle]
      have hcollect : collectStep collectMs t
          [(k, { messages := msgs, expiry := tprev + collectMs })] m
          = [(k, { messages :=
                     if List.any msgs (fun it => it.message_id == m.message_id)
                     then msgs else msgs ++ [m]
                   expiry := t + collectMs })] := by
        simp [collectStep, bufGet, bufSet, hkm]
      simp only [simulateCollect, hfire, hcollect]
      rw [ih _ t (fun q hq => hkey q (by simp [hq])) htrest]
      simp [lastTime, dedupInto]

theorem dedupInto_nodup :
    ∀ (l msgs : List TgMessage),
      (msgs.map (fun x => x.message_id)).Nodup →
      ((dedupInto msgs l).map (fun x => x.message_id)).Nodup := by
  intro l
  induction l with
  | nil => intro msgs h; simpa [dedupInto] using h
  | cons m rest ih =>
      intro msgs h
      by_cases hp : List.any msgs (fun it => it.message_id == m.message_id)
      · simpa [dedupInto, hp] using ih msgs h
      · have hnotin : m.message_id ∉ msgs.map (fun x => x.message_id) := by
          intro hmem
          apply hp
          simp only [List.mem_map] at hmem
          obtain ⟨x, hx, hid⟩ := hmem
          exact List.any_eq_true.mpr ⟨x, hx, by simp [hid]⟩
        have hnew : ((msgs ++ [m]).map (fun x => x.message_id)).Nodup := by
          rw [List.map_append]
          rw [List.nodup_append]
          exact ⟨h, List.nodup_singleton _, by simpa [List.Disjoint] using hnotin⟩
        simpa [dedupInto, hp] using ih (msgs ++ [m]) hnew

theorem dedupInto_mem_id :
    ∀ (l msgs : List TgMessage) (i : Int),
      i ∈ (dedupInto msgs l).map (fun x => x.message_id)
        ↔ i ∈ msgs.map (fun x => x.message_id)
          ∨ i ∈ l.map (fun x => x.message_id) := by
  intro l
  induction l with
  | nil => intro msgs i; simp [dedupInto]
  | cons m rest ih =>
      intro msgs i
      by_cases hp : List.any msgs (fun it => it.message_id == m.message_id)
      · have hm : m.message_id ∈ msgs.map (fun x => x.message_id) := by
          obtain ⟨x, hx, hid⟩ := List.any_eq_true.mp hp
          simp only [beq_iff_eq] at hid
          exact List.mem_map.mpr ⟨x, hx, hid⟩
        rw [dedupInto]
        simp only [hp, if_true]
        rw [ih msgs i]
        simp only [List.map_cons, List.mem_cons]
        constructor
        · rintro (h | h)
          · exact Or.inl h
          · exact Or.inr (Or.inr h)
        · rintro (h | h | h)
          · exact Or.inl h
          · exact Or.inl (h ▸ hm)
          · exact Or.inr h
      · rw [dedupInto]
        rw [Bool.not_eq_true] at hp
        simp only [hp, Bool.false_eq_true, if_false]
        rw [ih (msgs ++ [m]) i]
        simp only [List.map_append, List.map_cons, List.mem_append,
          List.mem_cons, List.mem_singleton, List.map_nil, List.not_mem_nil]
        tauto

theorem pairwise_lt_of_sorted_nodup (l : List TgMessage)
    (hs : List.Pairwise msgLE l)
    (hn : (l.map (fun x => x.message_id)).Nodup) :
    List.Pairwise (fun a b => a.message_id < b.message_id) l := by
  have hne : List.Pairwise (fun a b => a.message_id ≠ b.message_id) l :=
    List.pairwise_map.mp hn
  exact (hs.and hne).imp (fun h => lt_of_le_of_ne h.1 h.2)

/-- C5: a run of same-key album events, each arriving within the collection
window of the previous one, followed by silence longer than the window,
yields exactly one batch work item; its payload carries each distinct
`message_id` exactly once (a repeated id is appended only once), sorted
strictly ascending by `message_id`, and the buffer entry is gone after the
window expires. -/
theorem collectMediaGroup_batches (collectMs repostDelay : Nat) (k : String)
    (t0 : Nat) (m0 : TgMessage) (evtl : List (Nat × TgMessage))
    (hkey : ∀ p ∈ (t0, m0) :: evtl, mkKey p.2 = k)
    (ht : timesOk collectMs t0 evtl = true) :
    (simulateCollect collectMs repostDelay [] ((t0, m0) :: evtl)).2 = []
      ∧ (simulateCollect collectMs repostDelay [] ((t0, m0) :: evtl)).1.length = 1
      ∧ ∀ wi ∈ (simulateCollect collectMs repostDelay [] ((t0, m0) :: evtl)).1,
          List.Pairwise (fun a b => a.message_id < b.message_id) wi.messages
            ∧ ∀ i : Int,
                i ∈ wi.messages.map (fun x => x.message_id)
                  ↔ i ∈ ((t0, m0) :: evtl).map (fun p => p.2.message_id) := by
  have hk0 : mkKey m0 = k := hkey (t0, m0) (by simp)
  have hstep : simulateCollect collectMs repostDelay [] ((t0, m0) :: evtl)
      = simulateCollect collectMs repostDelay
          [(k, { messages := [m0], expiry := t0 + collectMs })] evtl := by
    simp [simulateCollect, fireDue, collectStep, bufGet, bufSet, hk0]
  rw [hstep,
    simulateCollect_single_key collectMs repostDelay k evtl [m0] t0
      (fun q hq => hkey q (by simp [hq])) ht]
  refine ⟨rfl, rfl, ?_⟩
  intro wi hwi
  simp only [List.mem_singleton] at hwi
  subst hwi
  have hperm : List.Perm
      (List.insertionSort msgLE (dedupInto [m0] (evtl.map (fun p => p.2))))
      (dedupInto [m0] (evtl.map (fun p => p.2))) :=
    List.perm_insertionSort msgLE _
  have hnodup0 : (([m0] : List TgMessage).map (fun x => x.message_id)).Nodup := by
    simp
  have hnodup := dedupInto_nodup (evtl.map (fun p => p.2)) [m0] hnodup0
  have hnodup_sorted :
      ((List.insertionSort msgLE (dedupInto [m0] (evtl.map (fun p => p.2)))).map
        (fun x => x.message_id)).Nodup :=
    ((hperm.map (fun x => x.message_id)).nodup_iff).mpr hnodup
  constructor
  · exact pairwise_lt_of_sorted_nodup _
      (List.sorted_insertionSort msgLE _) hnodup_sorted
  · intro i
    rw [(hperm.map (fun x => x.message_id)).mem_iff]
    rw [dedupInto_mem_id (evtl.map (fun p => p.2)) [m0] i]
    simp [List.map_map]

/-- C5 witness: four same-album events 100 ms apart (message ids 3, 1, 3, 2,
one id repeated) inside a 1200 ms window, then silence: exactly one batch
work item is emitted and the buffer ends empty. -/
theorem collectMediaGroup_batches_witness :
    (simulateCollect 1200 3000 []
        [(0, albumMsg 3), (100, albumMsg 1), (200, albumMsg 3), (300, albumMsg 2)]).2
      = []
      ∧ (simulateCollect 1200 3000 []
          [(0, albumMsg 3), (100, albumMsg 1), (200, albumMsg 3), (300, albumMsg 2)]).1.length
        = 1 := by
  have h := collectMediaGroup_batches 1200 3000 "1:album" 0 (albumMsg 3)
    [(100, albumMsg 1), (200, albumMsg 3), (300, albumMsg 2)]
    (by
      intro p hp
      simp only [List.mem_cons, List.not_mem_nil, or_false] at hp
      rcases hp with h1 | h1 | h1 | h1 <;> subst h1 <;> rfl)
    (by decide)
  exact ⟨h.1, h.2.1⟩

theorem bridgeStep_fold_single (defaultRepostDelayMs defaultCollectMs now : Nat)
    (m : BridgeTgMessage) (hmg : bridgeMgTruthy m = false) :
    ∀ (rs : List Route) (st : BridgeRuntimeState),
      rs.foldl (bridgeStep defaultRepostDelayMs defaultCollectMs now m) st
        = { queue := st.queue ++ rs.map (fun route =>
              { kind := "telegram_single", route := route
                runAt := now + getRouteDelayMs defaultRepostDelayMs route
                message := m })
            buffer := st.buffer } := by
  intro rs
  induction rs with
  | nil => intro st; simp
  | cons r rest ih =>
      intro st
      rw [List.foldl_cons, ih]
      simp [bridgeStep, hmg]

theorem bridgeStep_fold_album (defaultRepostDelayMs defaultCollectMs now : Nat)
    (m : BridgeTgMessage) (hmg : bridgeMgTruthy m = true) :
    ∀ (rs : List Route) (st : BridgeRuntimeState),
      rs.foldl (bridgeStep defaultRepostDelayMs defaultCollectMs now m) st
        = { queue := st.queue
            buffer := rs.foldl
              (fun buf route => bridgeCollectStep defaultCollectMs now route buf m)
              st.buffer } := by
  intro rs
  induction rs with
  | nil => intro st; simp
  | cons r rest ih =>
      intro st
      rw [List.foldl_cons, ih]
      simp [bridgeStep, hmg]

theorem findTelegramRoutes_eq_filter (routes : List Route) (m : BridgeTgMessage) :
    findTelegramRoutes routes m
      = routes.filter (fun r => r.enabled && matchTelegramSource r.source m) := by
  rw [findTelegramRoutes, getEnabledRoutes, List.filter_filter]
  apply List.filter_congr
  intro r _
  exact Bool.and_comm _ _

/-- C2: in the bridge runtime, an inbound event matching exactly two enabled
routes fans out to exactly two independent work items — `onTelegramMessage`
runs its loop once per route returned by `findTelegramRoutes`, appending one
queue item per route (each carrying that route’s own options and its own
`getRouteDelayMs` instant), or, for album messages, updating each route’s
own buffer entry under the per-route key — and a disabled route anywhere in
the table never contributes and never affects the result. -/
theorem findTelegramRoutes_fanOut (routes : List Route)
    (defaultRepostDelayMs defaultCollectMs now : Nat) (m : BridgeTgMessage)
    (h2 : routes.countP (fun r => r.enabled && matchTelegramSource r.source m) = 2) :
    (findTelegramRoutes routes m).length = 2
      ∧ (∀ r ∈ findTelegramRoutes routes m,
          r ∈ routes ∧ r.enabled = true ∧ matchTelegramSource r.source m = true)
      ∧ (bridgeMgTruthy m = false → ∀ st : BridgeRuntimeState,
          bridgeOnTelegramMessage routes defaultRepostDelayMs defaultCollectMs now st m
            = { queue := st.queue ++ (findTelegramRoutes routes m).map
                  (fun route =>
                    { kind := "telegram_single", route := route
                      runAt := now + getRouteDelayMs defaultRepostDelayMs route
                      message := m })
                buffer := st.buffer })
      ∧ (bridgeMgTruthy m = true → ∀ st : BridgeRuntimeState,
          bridgeOnTelegramMessage routes defaultRepostDelayMs defaultCollectMs now st m
            = { queue := st.queue
                buffer := (findTelegramRoutes routes m).foldl
                  (fun buf route => bridgeCollectStep defaultCollectMs now route buf m)
                  st.buffer })
      ∧ ∀ (l1 l2 : List Route) (d : Route), d.enabled = false →
          findTelegramRoutes (l1 ++ d :: l2) m = findTelegramRoutes (l1 ++ l2) m := by
  have hlen : (findTelegramRoutes routes m).length = 2 := by
    rw [findTelegramRoutes_eq_filter, ← List.countP_eq_length_filter]
    exact h2
  have hie : (findTelegramRoutes routes m).isEmpty = false := by
    cases hmc : findTelegramRoutes routes m with
    | nil => rw [hmc] at hlen; simp at hlen
    | cons a l => rfl
  refine ⟨hlen, ?_, ?_, ?_, ?_⟩
  · intro r hr
    rw [findTelegramRoutes_eq_filter] at hr
    obtain ⟨hmem, hpred⟩ := List.mem_filter.mp hr
    simp only [Bool.and_eq_true] at hpred
    exact ⟨hmem, hpred.1, hpred.2⟩
  · intro hmg st
    simp only [bridgeOnTelegramMessage, hie, Bool.false_eq_true, if_false]
    exact bridgeStep_fold_single defaultRepostDelayMs defaultCollectMs now m hmg
      (findTelegramRoutes routes m) st
  · intro hmg st
    simp only [bridgeOnTelegramMessage, hie, Bool.false_eq_true, if_false]
    exact bridgeStep_fold_album defaultRepostDelayMs defaultCollectMs now m hmg
      (findTelegramRoutes routes m) st
  · intro l1 l2 d hd
    rw [findTelegramRoutes_eq_filter, findTelegramRoutes_eq_filter,
      List.filter_append, List.filter_append]
    simp [hd]

/-- C2 witness: one discovered source channel and two MAX destinations give
two generated (enabled) routes; with a disabled route appended, the message
from that chat (handle differing only in case) matches exactly those two
routes, `onTelegramMessage` enqueues exactly two work items, and dropping
the disabled route changes nothing. -/
theorem findTelegramRoutes_fanOut_witness :
    (findTelegramRoutes bridgeRoutes0 bridgeMsg0).length = 2
      ∧ (bridgeOnTelegramMessage bridgeRoutes0 3000 1200 0
          { queue := [], buffer := [] } bridgeMsg0).queue.length = 2
      ∧ findTelegramRoutes bridgeRoutes0 bridgeMsg0
          = findTelegramRoutes (createRoutes cfg0 [tg0] [maxDest1, maxDest2])
              bridgeMsg0 := by
  have h := findTelegramRoutes_fanOut bridgeRoutes0 3000 1200 0 bridgeMsg0
    (by decide)
  refine ⟨h.1, ?_, ?_⟩
  · rw [h.2.2.1 (by decide) { queue := [], buffer := [] }]
    simp only [List.nil_append, List.length_map]
    exact h.1
  · have h5 := h.2.2.2.2 (createRoutes cfg0 [tg0] [maxDest1, maxDest2]) []
      disabledRoute (by decide)
    simpa [bridgeRoutes0] using h5

theorem forestSpans_append (a b : List ETree) :
    forestSpans (a ++ b) = forestSpans a ++ forestSpans b := by
  induction a with
  | nil => simp [forestSpans]
  | cons t ts ih => simp [forestSpans, ih]

theorem nodeSpans_toTree (o : OpenNode) :
    nodeSpans (toTree o) = openSpan o :: forestSpans o.children := rfl

theorem openSpan_children (p : OpenNode) (cs : List ETree) :
    openSpan { p with children := cs } = openSpan p := rfl

theorem stackSpansBelow_absorb (t p : OpenNode) (rs : List OpenNode) :
    List.Perm
      (stackSpansBelow ({ p with children := p.children ++ [toTree t] } :: rs))
      (stackSpansBelow (t :: p :: rs)) := by
  cases rs with
  | nil =>
      simp only [stackSpansBelow, forestSpans_append, forestSpans,
        nodeSpans_toTree, List.append_nil]
      exact List.perm_append_comm
  | cons q qs =>
      simp only [stackSpansBelow, forestSpans_append, forestSpans,
        nodeSpans_toTree, openSpan_children, List.append_nil]
      rw [List.perm_iff_count]
      intro a
      simp only [List.count_append, List.count_cons]
      omega

theorem closeUp_spans :
    ∀ (stack : List OpenNode) (acc : ETree), stack ≠ [] →
      List.Perm (spansBelow (closeUp acc stack))
        (nodeSpans acc ++ stackSpansBelow stack) := by
  intro stack
  induction stack with
  | nil => intro acc h; exact absurd rfl h
  | cons p rs ih =>
      intro acc _
      cases rs with
      | nil =>
          simp only [closeUp, toTree, spansBelow, forestSpans_append,
            forestSpans, stackSpansBelow, List.append_nil]
          exact List.perm_append_comm
      | cons q qs =>
          have h2 := ih (toTree { p with children := p.children ++ [acc] })
            (by simp)
          refine (h2.trans ?_)
          simp only [nodeSpans_toTree, stackSpansBelow, forestSpans_append,
            forestSpans, openSpan_children, List.append_nil]
          rw [List.perm_iff_count]
          intro a
          simp only [List.count_append, List.count_cons]
          omega

theorem closeAll_spans (stack : List OpenNode) (h : stack ≠ []) :
    List.Perm (spansBelow (closeAll stack)) (stackSpansBelow stack) := by
  cases stack with
  | nil => exact absurd rfl h
  | cons t rest =>
      cases rest with
      | nil => simp [closeAll, closeUp, spansBelow, toTree, stackSpansBelow]
      | cons p rs =>
          have h1 := closeUp_spans (p :: rs) (toTree t) (by simp)
          refine ((by simp [closeAll] : closeAll (t :: p :: rs)
            = closeUp (toTree t) (p :: rs)) ▸ h1).trans ?_
          simp only [nodeSpans_toTree, stackSpansBelow]
          exact List.Perm.refl _

theorem projR_children (p : OpenNode) (cs : List ETree) :
    projR { p with children := cs } = projR p := rfl

theorem dropWhile_head_false {α : Type} (p : α → Bool) :
    ∀ (l : List α) (x : α) (xs : List α), l.dropWhile p = x :: xs → p x = false := by
  intro l
  induction l with
  | nil => intro x xs h; simp [List.dropWhile] at h
  | cons a t ih =>
      intro x xs h
      rw [List.dropWhile_cons] at h
      by_cases hp : p a
      · rw [if_pos hp] at h
        exact ih x xs h
      · rw [if_neg hp] at h
        cases h
        rwa [Bool.not_eq_true] at hp

theorem getLast?_dropWhile {α : Type} (p : α → Bool) :
    ∀ (l : List α), l.dropWhile p ≠ [] → (l.dropWhile p).getLast? = l.getLast? := by
  intro l
  induction l with
  | nil => intro h; simp [List.dropWhile] at h
  | cons a t ih =>
      intro h
      rw [List.dropWhile_cons] at h ⊢
      by_cases hp : p a
      · rw [if_pos hp] at h ⊢
        have htne : t ≠ [] := by
          intro ht
          subst ht
          simp [List.dropWhile] at h
        rw [ih h]
        cases t with
        | nil => exact absurd rfl htne
        | cons b u => rw [List.getLast?_cons_cons]
      · rw [if_neg hp]

theorem popDueF_spec (off : Int) :
    ∀ (fuel : Nat) (stack : List OpenNode) (done : Option ETree),
      stack.length ≤ fuel →
      (∃ o ∈ stack, ¬ (o.endO ≤ off)) →
      ∃ stack',
        popDueF off fuel stack done = (stack', done)
          ∧ stack'.map projR
              = (stack.map projR).dropWhile (fun r => decide (r.2 ≤ off))
          ∧ stack' ≠ []
          ∧ List.Perm (stackSpansBelow stack') (stackSpansBelow stack) := by
  intro fuel
  induction fuel with
  | zero =>
      intro stack done hlen hkeep
      have hstack : stack = [] := List.length_eq_zero.mp (Nat.le_zero.mp hlen)
      subst hstack
      obtain ⟨o, ho, _⟩ := hkeep
      simp at ho
  | succ fuel ih =>
      intro stack done hlen hkeep
      cases stack with
      | nil =>
          obtain ⟨o, ho, _⟩ := hkeep
          simp at ho
      | cons t rest =>
          by_cases ht : t.endO ≤ off
          · cases rest with
            | nil =>
                obtain ⟨o, ho, hno⟩ := hkeep
                simp only [List.mem_singleton] at ho
                subst ho
                exact absurd ht hno
            | cons p rs =>
                have hkeep2 : ∃ o ∈
                    ({ p with children := p.children ++ [toTree t] } :: rs),
                    ¬ (o.endO ≤ off) := by
                  obtain ⟨o, ho, hno⟩ := hkeep
                  simp only [List.mem_cons] at ho
                  rcases ho with h | h | h
                  · subst h; exact absurd ht hno
                  · subst h
                    exact ⟨{ o with children := o.children ++ [toTree t] },
                      List.mem_cons_self _ _, hno⟩
                  · exact ⟨o, List.mem_cons_of_mem _ h, hno⟩
                have hlen2 :
                    ({ p with children := p.children ++ [toTree t] } :: rs).length
                      ≤ fuel := by
                  simp only [List.length_cons] at hlen ⊢
                  omega
                obtain ⟨stack', heq, hmap, hne, hperm⟩ := ih _ done hlen2 hkeep2
                refine ⟨stack', ?_, ?_, hne, ?_⟩
                · simp only [popDueF, if_pos ht]
                  exact heq
                · rw [hmap]
                  simp only [List.map_cons, projR_children]
                  have ht2 : decide ((projR t).2 ≤ off) = true := by
                    simp [projR, ht]
                  conv_rhs => rw [List.dropWhile_cons]
                  rw [if_pos ht2]
                · exact hperm.trans (stackSpansBelow_absorb t p rs)
          · refine ⟨t :: rest, ?_, ?_, by simp, List.Perm.refl _⟩
            · simp [popDueF, ht]
            · rw [List.map_cons, List.dropWhile_cons]
              have : decide ((projR t).2 ≤ off) = false := by
                simp [projR, ht]
              rw [if_neg (by simp [this])]

theorem getLast?_cons_of_ne_nil {α : Type} (a : α) (l : List α) (h : l ≠ []) :
    (a :: l).getLast? = l.getLast? := by
  cases l with
  | nil => exact absurd rfl h
  | cons b u => exact List.getLast?_cons_cons

theorem foldl_stepEnt_spec (L : Int) :
    ∀ (todo : List Ent) (stack : List OpenNode),
      stack ≠ [] →
      (stack.map projR).getLast? = some (0, L) →
      List.Chain' (fun a b => b.1 ≤ a.1 ∧ a.2 ≤ b.2) (stack.map projR) →
      (∀ e ∈ todo, 0 < e.length ∧ 0 ≤ e.offset ∧ e.endO ≤ L
        ∧ e.endO = e.offset + e.length) →
      (∀ r ∈ stack.map projR, ∀ e ∈ todo,
        r.1 ≤ e.offset ∧ (r.1 = e.offset → e.endO ≤ r.2)) →
      (∀ r ∈ stack.map projR, ∀ e ∈ todo, ncR r (e.offset, e.endO)) →
      List.Pairwise entLE todo →
      List.Pairwise noncross todo →
      ∃ stack', todo.foldl stepEnt (stack, none) = (stack', none)
        ∧ stack' ≠ []
        ∧ List.Perm (stackSpansBelow stack') (stackSpansBelow stack ++ todo) := by
  intro todo
  induction todo with
  | nil =>
      intro stack hne _ _ _ _ _ _ _
      exact ⟨stack, rfl, hne, by simp⟩
  | cons e rest ih =>
      intro stack hne hlast hchain hvalid hP hNC hsorted hNCt
      obtain ⟨hlen, hoff, hendL, hend⟩ := hvalid e (List.mem_cons_self e rest)
      have hbotmem : ∃ o ∈ stack, ¬ (o.endO ≤ e.offset) := by
        have hmem : ((0 : Int), L) ∈ stack.map projR :=
          List.mem_of_getLast?_eq_some hlast
        obtain ⟨o, ho, hpr⟩ := List.mem_map.mp hmem
        refine ⟨o, ho, ?_⟩
        have h2 : o.endO = L := congrArg Prod.snd hpr
        omega
      obtain ⟨stack₁, heq1, hmap1, hne1, hperm1⟩ :=
        popDueF_spec e.offset stack.length stack none le_rfl hbotmem
      cases stack₁ with
      | nil => exact absurd rfl hne1
      | cons top rest₁ =>
          have hsuffix : ((top :: rest₁).map projR) <:+ stack.map projR := by
            rw [hmap1]
            exact List.dropWhile_suffix _
          have htopmem : projR top ∈ stack.map projR :=
            hsuffix.subset (List.mem_cons_self _ _)
          have htopnotle : e.offset < top.endO := by
            have hh := dropWhile_head_false (fun r => decide (r.2 ≤ e.offset))
              (stack.map projR) (projR top) (rest₁.map projR) hmap1.symm
            simp only [projR, decide_eq_false_iff_not, not_le] at hh
            exact hh
          have hPtop := hP (projR top) htopmem e (List.mem_cons_self e rest)
          have hNCtop := hNC (projR top) htopmem e (List.mem_cons_self e rest)
          simp only [projR] at hPtop hNCtop
          have hcont : top.offset ≤ e.offset ∧ e.endO ≤ top.endO := by
            obtain ⟨hp1, hp2⟩ := hPtop
            simp only [ncR] at hNCtop
            rcases hNCtop with h | h | h | h <;> constructor <;> omega
          have hstep : stepEnt (stack, none) e = (mkOpen e :: top :: rest₁, none) := by
            have hc1 : decide (e.offset < top.offset) = false := by
              simp [not_lt.mpr hcont.1]
            have hc2 : decide (top.endO < e.endO) = false := by
              simp [not_lt.mpr hcont.2]
            simp only [stepEnt, heq1, hc1, hc2, Bool.or_self,
              Bool.false_eq_true, if_false]
          have hne2 : (mkOpen e :: top :: rest₁ : List OpenNode) ≠ [] := by simp
          have hmapne : ((top :: rest₁).map projR) ≠ [] := by simp
          have hlast2 : (((mkOpen e :: top :: rest₁).map projR)).getLast?
              = some (0, L) := by
            rw [List.map_cons, getLast?_cons_of_ne_nil _ _ hmapne, hmap1,
              getLast?_dropWhile _ _ (by rw [← hmap1]; exact hmapne)]
            exact hlast
          have hchain2 : List.Chain' (fun a b => b.1 ≤ a.1 ∧ a.2 ≤ b.2)
              ((mkOpen e :: top :: rest₁).map projR) := by
            rw [List.map_cons]
            apply List.chain'_cons'.mpr
            constructor
            · intro b hb
              simp only [List.map_cons, List.head?_cons, Option.mem_def,
                Option.some.injEq] at hb
              subst hb
              exact ⟨hcont.1, hcont.2⟩
            · exact hchain.suffix hsuffix
          have hheadLE := (List.pairwise_cons.mp hsorted).1
          have hheadNC := (List.pairwise_cons.mp hNCt).1
          have hsub2 : ∀ r ∈ (top :: rest₁).map projR, r ∈ stack.map projR :=
            fun r hr => hsuffix.subset hr
          have hP2 : ∀ r ∈ (mkOpen e :: top :: rest₁).map projR,
              ∀ x ∈ rest, r.1 ≤ x.offset ∧ (r.1 = x.offset → x.endO ≤ r.2) := by
            intro r hr x hx
            rw [List.map_cons] at hr
            rcases List.mem_cons.mp hr with h | h
            · subst h
              show e.offset ≤ x.offset ∧ (e.offset = x.offset → x.endO ≤ e.endO)
              obtain ⟨_, _, _, hxend⟩ := hvalid x (List.mem_cons_of_mem _ hx)
              rcases hheadLE x hx with h1 | ⟨h1, h2⟩
              · exact ⟨le_of_lt h1, fun hx2 => absurd hx2 (ne_of_lt h1)⟩
              · exact ⟨le_of_eq h1, fun _ => by omega⟩
            · exact hP r (hsub2 r h) x (List.mem_cons_of_mem _ hx)
          have hNC2 : ∀ r ∈ (mkOpen e :: top :: rest₁).map projR,
              ∀ x ∈ rest, ncR r (x.offset, x.endO) := by
            intro r hr x hx
            rw [List.map_cons] at hr
            rcases List.mem_cons.mp hr with h | h
            · subst h
              exact hheadNC x hx
            · exact hNC r (hsub2 r h) x (List.mem_cons_of_mem _ hx)
          obtain ⟨stack₃, heq3, hne3, hperm3⟩ :=
            ih _ hne2 hlast2 hchain2
              (fun x hx => hvalid x (List.mem_cons_of_mem _ hx))
              hP2 hNC2 (List.pairwise_cons.mp hsorted).2
              (List.pairwise_cons.mp hNCt).2
          refine ⟨stack₃, ?_, hne3, ?_⟩
          · rw [List.foldl_cons, hstep]
            exact heq3
          · refine hperm3.trans ?_
            have hsb : stackSpansBelow (mkOpen e :: top :: rest₁)
                = e :: stackSpansBelow (top :: rest₁) := rfl
            rw [hsb]
            refine List.Perm.trans ?_ List.perm_middle.symm
            exact List.Perm.cons e (hperm1.append_right rest)

/-- C7: for every body length and every entity list whose surviving entities
are pairwise non-crossing (nested or disjoint — partial sibling overlap
excluded, as the claim assumes), the tree built by `buildEntityTree`
contains exactly the entities that pass the filter — positive length,
non-negative offset, range within the body (bounds are intrinsically finite
for `Int` offsets) — and no others. -/
theorem buildEntityTree_exact (textLength : Int) (entities : List RawEntity)
    (hNC : List.Pairwise noncross
        ((entities.filter (entOk textLength)).map toEnt)) :
    ∀ s : Ent, s ∈ spansBelow (buildEntityTree textLength entities)
      ↔ s ∈ (entities.filter (entOk textLength)).map toEnt := by
  have hperm_sort : List.Perm
      (List.insertionSort entLE ((entities.filter (entOk textLength)).map toEnt))
      ((entities.filter (entOk textLength)).map toEnt) :=
    List.perm_insertionSort entLE _
  have hvalid : ∀ e ∈ List.insertionSort entLE
      ((entities.filter (entOk textLength)).map toEnt),
      0 < e.length ∧ 0 ≤ e.offset ∧ e.endO ≤ textLength
        ∧ e.endO = e.offset + e.length := by
    intro e he
    have he2 : e ∈ (entities.filter (entOk textLength)).map toEnt :=
      hperm_sort.subset he
    obtain ⟨raw, hraw, hte⟩ := List.mem_map.mp he2
    have hok : entOk textLength raw = true := (List.mem_filter.mp hraw).2
    simp only [entOk, Bool.and_eq_true, decide_eq_true_eq] at hok
    subst hte
    exact ⟨hok.1.1, hok.1.2, hok.2, rfl⟩
  have hsorted : List.Pairwise entLE (List.insertionSort entLE
      ((entities.filter (entOk textLength)).map toEnt)) :=
    List.sorted_insertionSort entLE _
  have hsymm : Symmetric noncross := by
    intro a b h
    simp only [noncross, ncR] at h ⊢
    tauto
  have hNCs : List.Pairwise noncross (List.insertionSort entLE
      ((entities.filter (entOk textLength)).map toEnt)) :=
    (hperm_sort.pairwise_iff (fun h => hsymm h)).mpr hNC
  have hP0 : ∀ r ∈ ([rootNode textLength].map projR),
      ∀ e ∈ List.insertionSort entLE
        ((entities.filter (entOk textLength)).map toEnt),
      r.1 ≤ e.offset ∧ (r.1 = e.offset → e.endO ≤ r.2) := by
    intro r hr e he
    simp only [List.map_cons, List.map_nil, List.mem_singleton] at hr
    subst hr
    obtain ⟨_, h2, h3, _⟩ := hvalid e he
    exact ⟨h2, fun _ => h3⟩
  have hNC0 : ∀ r ∈ ([rootNode textLength].map projR),
      ∀ e ∈ List.insertionSort entLE
        ((entities.filter (entOk textLength)).map toEnt),
      ncR r (e.offset, e.endO) := by
    intro r hr e he
    simp only [List.map_cons, List.map_nil, List.mem_singleton] at hr
    subst hr
    obtain ⟨_, h2, h3, _⟩ := hvalid e he
    exact Or.inr (Or.inr (Or.inl ⟨h2, h3⟩))
  obtain ⟨stack', heq, hne', hperm'⟩ :=
    foldl_stepEnt_spec textLength
      (List.insertionSort entLE ((entities.filter (entOk textLength)).map toEnt))
      [rootNode textLength]
      (by simp) (by simp [rootNode, projR]) (by simp) hvalid hP0 hNC0 hsorted hNCs
  intro s
  have htree : buildEntityTree textLength entities = closeAll stack' := by
    simp only [buildEntityTree]
    rw [heq]
  rw [htree, (closeAll_spans stack' hne').mem_iff, hperm'.mem_iff]
  simp only [stackSpansBelow, forestSpans, List.nil_append]
  rw [hperm_sort.mem_iff]

/-- C7 witness: over a 10-codepoint body with a bold span, an italic span
nested inside it, a negative-offset span and an overrunning span, the tree
contains the bold span and not the dropped negative-offset one. -/
theorem buildEntityTree_exact_witness :
    toEnt entBold ∈ spansBelow
        (buildEntityTree 10 [entBold, entItalic, entNegative, entOverflow])
      ∧ toEnt entNegative ∉ spansBelow
          (buildEntityTree 10 [entBold, entItalic, entNegative, entOverflow]) := by
  have h := buildEntityTree_exact 10 [entBold, entItalic, entNegative, entOverflow]
    (by decide)
  constructor
  · exact (h (toEnt entBold)).mpr (by decide)
  · intro hm
    exact absurd ((h (toEnt entNegative)).mp hm) (by decide)
